import Mathlib

/-!
Circular arcs (`CircArc.h`) over exact rational arithmetic.

A shallow embedding of `CircArcLen<Type>` and `CircArc<Type>` from `src/CircArc.h`.
A C++ `double` is a rational number (`ℚ`), so every definition below is executable and
every comparison is decidable.  Arithmetic is exact by default; where the rounding of a
double operation decides a property, the operation is rounded explicitly with `rd64`
(`CircArc.mkRawD`, `CircArcTester.arcD`).  The compile-time range `Type` becomes an explicit
value of type `Range`.
-/

namespace Circular

/-- Modelled from the spec: the range descriptor produced by the `CircValTypeDef` macro of
`CircVal.h`, which is not among the sources.  It carries the constants `L`, `H` and `Z`
of the half-open domain `[L, H)`. -/
structure Range where
  L : ℚ
  H : ℚ
  Z : ℚ
  deriving DecidableEq

/-- Modelled from the spec: the circumference `R = H - L` that `CircValTypeDef`
(`CircVal.h`, not among the sources) attaches to a range as `Type::R`. -/
def Range.R (T : Range) : ℚ := T.H - T.L

/-- Modelled from the spec: the helper `Mod` of `CircHelper.h` (not among the sources),
the "true mathematical modulo" with a non-negative result: `x - y * floor (x / y)`. -/
def Mod (x y : ℚ) : ℚ := x - y * (⌊x / y⌋ : ℤ)

/-- Modelled from the spec: `CircVal<Type>` of `CircVal.h` (not among the sources),
one scalar `val`, kept inside `[L, H)` by its constructors. -/
structure CircVal where
  val : ℚ
  deriving DecidableEq

/-- Modelled from the spec: the class invariant of `CircVal<Type>` (`CircVal.h`, not among
the sources): the stored value lies in `[Type::L, Type::H)`. -/
def CircVal.InRange (T : Range) (c : CircVal) : Prop := T.L ≤ c.val ∧ c.val < T.H

instance (T : Range) (c : CircVal) : Decidable (c.InRange T) := by
  unfold CircVal.InRange; exact inferInstance

/-- Modelled from the spec: `CircVal<Type>::Wrap` of `CircVal.h` (not among the sources),
normalisation of a raw scalar: `L + ((raw - L) mod R)`. -/
def CircVal.Wrap (T : Range) (r : ℚ) : ℚ := T.L + Mod (r - T.L) T.R

/-- Modelled from the spec: the constructor `CircVal<Type>(double)` of `CircVal.h` (not among
the sources): any raw input is wrapped into `[L, H)`. -/
def CircVal.ofRaw (T : Range) (r : ℚ) : CircVal := ⟨CircVal.Wrap T r⟩

/-- Modelled from the spec: `CircVal<Type>::Pdist` of `CircVal.h` (not among the sources),
the length of the increasing walk from `c1` to `c2`, wrapping once if needed. -/
def CircVal.Pdist (T : Range) (c1 c2 : CircVal) : ℚ :=
  if c2.val ≥ c1.val then c2.val - c1.val else T.R - c1.val + c2.val

/-- The arc length `CircArcLen<Type>`: one scalar `l`, meant to lie in `[0, Type::R]`. -/
structure CircArcLen where
  l : ℚ
  deriving DecidableEq

/-- The class comment of `CircArcLen`: the length lies in `[0, Type::R]`. -/
def CircArcLen.InRange (T : Range) (x : CircArcLen) : Prop := 0 ≤ x.l ∧ x.l ≤ T.R

instance (T : Range) (x : CircArcLen) : Decidable (x.InRange T) := by
  unfold CircArcLen.InRange; exact inferInstance

/-- The constructor `CircArcLen(double r)`: `l(__min(__max(0., r), Type::R))`. -/
def CircArcLen.ofRaw (T : Range) (r : ℚ) : CircArcLen := ⟨min (max 0 r) T.R⟩

/-- The tolerance `1e-12` written in `Contains`: the literal is the double nearest to
`10^-12`, which is `4951760157141521 / 2^92`, a little below `10^-12`. -/
def eps : ℚ := 4951760157141521 / 4951760157141521099596496896

/-- The circular arc `CircArc<Type>`: start point `c1`, end point `c2`, length `l`. -/
structure CircArc where
  c1 : CircVal
  c2 : CircVal
  l : CircArcLen
  deriving DecidableEq

namespace CircArc

/-- Getter `GetC1`. -/
def GetC1 (a : CircArc) : CircVal := a.c1

/-- Getter `GetC2`. -/
def GetC2 (a : CircArc) : CircVal := a.c2

/-- Getter `GetL`, read through `operator double`. -/
def GetL (a : CircArc) : ℚ := a.l.l

/-- The default constructor `CircArc() : c1(Type::Z), c2(Type::Z), l(0)`. -/
def mkDefault (T : Range) : CircArc :=
  ⟨CircVal.ofRaw T T.Z, CircVal.ofRaw T T.Z, CircArcLen.ofRaw T 0⟩

/-- The "reference" constructor from a start point and an arc length, both of the arc's own
range: `c1(_c1), c2((double)c1 + (double)_l), l(_l)`, with the sum taken exactly
(`CircArc.mkValLenD` rounds it). -/
def mkValLen (T : Range) (c : CircVal) (len : CircArcLen) : CircArc :=
  ⟨c, CircVal.ofRaw T (c.val + len.l), len⟩

/-- The constructor `CircArc(double fc1, double fl)`:
`c1(fc1), c2(fc1 + CircArcLen<Type>(fl)), l(fl)`, with the sum taken exactly
(`CircArc.mkRawD` rounds it). -/
def mkRaw (T : Range) (fc1 fl : ℚ) : CircArc :=
  ⟨CircVal.ofRaw T fc1, CircVal.ofRaw T (fc1 + (CircArcLen.ofRaw T fl).l), CircArcLen.ofRaw T fl⟩

/-- The constructor from a start point and an end point, both of the arc's own range:
`c1(_c1), c2(_c2), l(Pdist(c1, c2))`. -/
def mkValVal (T : Range) (s e : CircVal) : CircArc :=
  ⟨s, e, CircArcLen.ofRaw T (CircVal.Pdist T s e)⟩

/-- `operator==`: two full circles are equal, otherwise start points and lengths are compared. -/
def eq (T : Range) (a b : CircArc) : Bool :=
  if a.l.l = T.R ∧ b.l.l = T.R then true
  else decide (a.c1 = b.c1) && decide (a.l = b.l)

/-- `operator!=`: `!(*this == a)`. -/
def ne (T : Range) (a b : CircArc) : Bool := !(eq T a b)

/-- `Contains(const CircVal<Type>& c)`: `l - Pdist(c1, c) > -1e-12`. -/
def Contains (T : Range) (a : CircArc) (c : CircVal) : Bool :=
  decide (a.l.l - CircVal.Pdist T a.c1 c > -eps)

/-- `Contains(const CircArc& a)`: the full-circle short cuts, then the order test
`c1 --- a.c1 --- a.c2 --- c2` with tolerance. -/
def ContainsArc (T : Range) (a b : CircArc) : Bool :=
  if a.l.l = T.R then true
  else if b.l.l = T.R then false
  else
    let l1 := CircVal.Pdist T a.c1 b.c1
    let l2 := CircVal.Pdist T a.c1 b.c2
    decide (l2 - l1 > -eps) && decide (a.l.l - l2 > -eps)

/-- `Intersect(const CircArc& a)`: `Contains(a.c1) || a.Contains(c1)`. -/
def Intersect (T : Range) (a b : CircArc) : Bool :=
  Contains T a b.c1 || Contains T b a.c1

/-- The arcs that the constructors of one range produce: the default arc, start and length
(as a circular value and an arc length of the range, or as two raw numbers), and start and
end point. -/
inductive Built (T : Range) : CircArc → Prop
  | default : Built T (mkDefault T)
  | valLen (c : CircVal) (len : CircArcLen) :
      c.InRange T → len.InRange T → Built T (mkValLen T c len)
  | raw (fc1 fl : ℚ) : Built T (mkRaw T fc1 fl)
  | valVal (s e : CircVal) : s.InRange T → e.InRange T → Built T (mkValVal T s e)

end CircArc

/-- Modelled from the spec: the range `UnsignedDegRange` declared in `CircVal.h` (not among
the sources), the domain `[0, 360)` of the scenarios, with zero representative 0. -/
def UnsignedDegRange : Range := ⟨0, 360, 0⟩

/-- Modelled from the spec: the range `SignedDegRange` declared in `CircVal.h` (not among
the sources), the domain `[-180, 180)` of the scenarios, with zero representative 0. -/
def SignedDegRange : Range := ⟨-180, 180, 0⟩

/-- The member comments of `CircArc`: `c1`, `c2` in `[L, H)` and `l` in `[0, R]`. -/
def CircArc.InRange (T : Range) (a : CircArc) : Prop :=
  a.c1.InRange T ∧ a.c2.InRange T ∧ a.l.InRange T

/-- The class comment of `CircArc`: the arc is the increasing walk from `c1` to `c1 + l`, so
the end point is the start point advanced by the length and wrapped (which gives `c2 = c1`
for the full circle `l = R`). -/
def CircArc.Inv (T : Range) (a : CircArc) : Prop :=
  a.c1.InRange T ∧ a.l.InRange T ∧ a.c2 = CircVal.ofRaw T (a.c1.val + a.l.l)

/-- Two circular values are apart when they coincide or when the walk between them is at
least the tolerance `1e-12` long in both directions. -/
def CircVal.Apart (T : Range) (x y : CircVal) : Prop :=
  x = y ∨ (eps ≤ CircVal.Pdist T x y ∧ eps ≤ CircVal.Pdist T y x)

/-- The assignment `CircArcLen::operator=(double r)`: `l = __min(__max(0., r), Type::R)`;
the value held before is overwritten. -/
def CircArcLen.assign (T : Range) (_self : CircArcLen) (r : ℚ) : CircArcLen :=
  ⟨min (max 0 r) T.R⟩

/-- The converting constructor `CircArcLen(const CircArcLen<Type2>& c)`, from the range `T2`
into the range `T`: `l((c == Type2::R) ? Type::R : Type::R / Type2::R * c)`. -/
def CircArcLen.convert (T2 T : Range) (c : CircArcLen) : CircArcLen :=
  ⟨if c.l = T2.R then T.R else T.R / T2.R * c.l⟩

/-- The converting assignment `CircArcLen::operator=(const CircArcLen<Type2>& c)`:
`l = (c == Type2::R) ? Type::R : Type::R / Type2::R * c`; the value held before is
overwritten. -/
def CircArcLen.assignConvert (T2 T : Range) (_self : CircArcLen) (c : CircArcLen) :
    CircArcLen :=
  ⟨if c.l = T2.R then T.R else T.R / T2.R * c.l⟩

/-- The constant `nSteps = 36` of `CircArcTester::Test`. -/
def nSteps : ℕ := 36

/-- The constant `fStep = Type::R / nSteps` of `CircArcTester::Test`, with the quotient taken
exactly (`fStepD` rounds it). -/
def fStep (T : Range) : ℚ := T.R / nSteps

/-- The arcs swept by `CircArcTester::Test`:
`CircArc<Type>(Type::L + i*fStep, j*fStep)`, start point and length, with every product and
sum taken exactly (`CircArcTester.arcD` rounds them). -/
def CircArcTester.arc (T : Range) (i j : ℕ) : CircArc :=
  CircArc.mkRaw T (T.L + i * fStep T) (j * fStep T)

/-- The loop nest of `CircArcTester::Test` (`i`, `k` below `nSteps`; `j`, `l` up to `nSteps`
included), counting the iterations at which the test `f a1 a2` is true. -/
def CircArcTester.count (T : Range) (f : CircArc → CircArc → Bool) : ℕ :=
  ((List.range nSteps).map fun i => ((List.range (nSteps + 1)).map fun j =>
    ((List.range nSteps).map fun k => ((List.range (nSteps + 1)).countP fun l =>
      f (CircArcTester.arc T i j) (CircArcTester.arc T k l))).sum).sum).sum

/-- The counter `m` of `CircArcTester::Test`: `b1 = a1.Contains(a2); if (b1) ++m`. -/
def CircArcTester.m (T : Range) : ℕ :=
  CircArcTester.count T fun a1 a2 => CircArc.ContainsArc T a1 a2

/-- The counter `n` of `CircArcTester::Test`: `b2 = a2.Contains(a1); if (b2) ++n`. -/
def CircArcTester.n (T : Range) : ℕ :=
  CircArcTester.count T fun a1 a2 => CircArc.ContainsArc T a2 a1

/-- The containment test of two grid arcs in whole steps: the container has the length `j`,
the contained arc starts `d` steps after the container's start point and has the length
`l`. -/
def stepContains (j d l : ℕ) : Bool :=
  if j = 36 then true
  else if l = 36 then false
  else decide (d ≤ (d + l) % 36) && decide ((d + l) % 36 ≤ j)

/-- The number of triples `(j, d, l)`, with `j`, `l` up to 36 included and `d` below 36, at
which the test `g j d l` is true. -/
def stepCount (g : ℕ → ℕ → ℕ → Bool) : ℕ :=
  ((List.range 37).map fun j =>
    ((List.range 36).map fun d => ((List.range 37).countP fun l => g j d l)).sum).sum

/-- Rounding of a rational number to the nearest integer, a tie going to the even integer:
the rounding IEEE 754 applies to the significand of a result. -/
def roundEven (y : ℚ) : ℤ :=
  if y - ⌊y⌋ < 1 / 2 then ⌊y⌋
  else if 1 / 2 < y - ⌊y⌋ then ⌊y⌋ + 1
  else if ⌊y⌋ % 2 = 0 then ⌊y⌋ else ⌊y⌋ + 1

/-- The binary exponent of the doubles next to `x`: the greatest `e` with `2^e ≤ |x|`, and
`-1022` below the normal range. -/
def binade (x : ℚ) : ℤ := max (Int.log 2 |x|) (-1022)

/-- The value a C++ `double` operation stores when its exact result is `x` (IEEE 754 binary64,
round to nearest, ties to even, significand of 53 bits), for results below `2^1024` in
magnitude. -/
def rd64 (x : ℚ) : ℚ := roundEven (x / 2 ^ (binade x - 52)) * 2 ^ (binade x - 52)

/-- The constructor `CircArc(double fc1, double fl)` with the sum of its initialiser
`c2(fc1 + CircArcLen<Type>(fl))` rounded as the double addition rounds it; `CircArc.mkRaw` is
the same constructor with that sum taken exactly. -/
def CircArc.mkRawD (T : Range) (fc1 fl : ℚ) : CircArc :=
  ⟨CircVal.ofRaw T fc1, CircVal.ofRaw T (rd64 (fc1 + (CircArcLen.ofRaw T fl).l)),
    CircArcLen.ofRaw T fl⟩

/-- The constructor from a start point and an arc length of the arc's own range with the sum
of its initialiser `c2((double)c1 + (double)_l)` rounded as the double addition rounds it. -/
def CircArc.mkValLenD (T : Range) (c : CircVal) (len : CircArcLen) : CircArc :=
  ⟨c, CircVal.ofRaw T (rd64 (c.val + len.l)), len⟩

/-- The constant `fStep = Type::R / nSteps` of `CircArcTester::Test` as a double. -/
def fStepD (T : Range) : ℚ := rd64 (T.R / nSteps)

/-- The arcs swept by `CircArcTester::Test` as the doubles give them:
`CircArc<Type>(Type::L + i*fStep, j*fStep)` with every product and sum rounded. -/
def CircArcTester.arcD (T : Range) (i j : ℕ) : CircArc :=
  CircArc.mkRawD T (rd64 (T.L + rd64 (i * fStepD T))) (rd64 (j * fStepD T))

/-- The distance between the walk from the stored start point to the stored end point and the
stored length, `|Pdist(c1, c2) - l|`: the rounding error that the constructor's sum left in
the end point (0 when the sum is exact and the arc is not a full circle). -/
def CircArc.endDev (T : Range) (a : CircArc) : ℚ := |CircVal.Pdist T a.c1 a.c2 - a.l.l|

/-- A range `[0, 2^20)` of the kind `CircValTypeDef` lets a caller declare. -/
def WideRange : Range := ⟨0, 1048576, 0⟩

/-- `Contains(const CircArc& a)` with the function `Pdist` of the absent `CircVal.h` taken
as a parameter `pd`: a double implementation of `Pdist` returns a rounded walk length.
With `pd = CircVal.Pdist T` this is `CircArc.ContainsArc`. -/
def CircArc.ContainsArcP (pd : CircVal → CircVal → ℚ) (T : Range) (a b : CircArc) : Bool :=
  if a.l.l = T.R then true
  else if b.l.l = T.R then false
  else
    let l1 := pd a.c1 b.c1
    let l2 := pd a.c1 b.c2
    decide (l2 - l1 > -eps) && decide (a.l.l - l2 > -eps)

/-! ## Auxiliary facts about the circular-value layer -/

theorem eps_pos : 0 < eps := by norm_num [eps]

theorem Mod_nonneg (x y : ℚ) (hy : 0 < y) : 0 ≤ Mod x y := by
  have h := Int.floor_le (x / y)
  have h2 : (⌊x / y⌋ : ℚ) * y ≤ x := (le_div_iff₀ hy).mp h
  unfold Mod; linarith

theorem Mod_lt (x y : ℚ) (hy : 0 < y) : Mod x y < y := by
  have h := Int.lt_floor_add_one (x / y)
  have h2 : x < ((⌊x / y⌋ : ℚ) + 1) * y := (div_lt_iff₀ hy).mp h
  unfold Mod; linarith

theorem Mod_eq_of_bounds (x y : ℚ) (k : ℤ) (hy : 0 < y) (h0 : 0 ≤ x - y * k)
    (h1 : x - y * k < y) : Mod x y = x - y * k := by
  have hk : ⌊x / y⌋ = k := by
    rw [Int.floor_eq_iff]
    constructor
    · rw [le_div_iff₀ hy]; linarith
    · rw [div_lt_iff₀ hy]; linarith
  unfold Mod; rw [hk]

theorem Wrap_inRange (T : Range) (r : ℚ) (hR : 0 < T.R) : (CircVal.ofRaw T r).InRange T := by
  have h0 := Mod_nonneg (r - T.L) T.R hR
  have h1 := Mod_lt (r - T.L) T.R hR
  have hd : T.R = T.H - T.L := rfl
  constructor
  · show T.L ≤ T.L + Mod (r - T.L) T.R
    linarith
  · show T.L + Mod (r - T.L) T.R < T.H
    linarith

theorem Wrap_of_shift (T : Range) (r : ℚ) (k : ℤ) (hR : 0 < T.R) (h0 : T.L ≤ r - T.R * k)
    (h1 : r - T.R * k < T.H) : CircVal.Wrap T r = r - T.R * k := by
  unfold CircVal.Wrap
  rw [Mod_eq_of_bounds (r - T.L) T.R k hR (by linarith)
    (by have hd : T.R = T.H - T.L := rfl
        linarith)]
  ring

theorem Wrap_exists_shift (T : Range) (r : ℚ) : ∃ k : ℤ, CircVal.Wrap T r = r - T.R * k :=
  ⟨⌊(r - T.L) / T.R⌋, by unfold CircVal.Wrap Mod; ring⟩

theorem Wrap_self (T : Range) (c : CircVal) (hR : 0 < T.R) (hc : c.InRange T) :
    CircVal.Wrap T c.val = c.val := by
  have h := Wrap_of_shift T c.val 0 hR (by simpa using hc.1) (by simpa using hc.2)
  simpa using h

theorem Wrap_add_wrap (T : Range) (r l : ℚ) (hR : 0 < T.R) :
    CircVal.Wrap T (CircVal.Wrap T r + l) = CircVal.Wrap T (r + l) := by
  obtain ⟨k, hk⟩ := Wrap_exists_shift T r
  obtain ⟨j, hj⟩ := Wrap_exists_shift T (r + l)
  have hin := Wrap_inRange T (r + l) hR
  have h0 : T.L ≤ CircVal.Wrap T (r + l) := hin.1
  have h1 : CircVal.Wrap T (r + l) < T.H := hin.2
  rw [hk]
  have h := Wrap_of_shift T (r - T.R * k + l) (j - k) hR
    (by push_cast; rw [hj] at h0; linarith) (by push_cast; rw [hj] at h1; linarith)
  rw [h, hj]; push_cast; ring

theorem Pdist_self (T : Range) (c : CircVal) : CircVal.Pdist T c c = 0 := by
  simp [CircVal.Pdist]

theorem Pdist_nonneg (T : Range) (x y : CircVal) (hx : x.InRange T) (hy : y.InRange T) :
    0 ≤ CircVal.Pdist T x y := by
  have hd : T.R = T.H - T.L := rfl
  obtain ⟨hx0, hx1⟩ := hx
  obtain ⟨hy0, hy1⟩ := hy
  unfold CircVal.Pdist
  split_ifs <;> linarith

theorem Pdist_lt (T : Range) (x y : CircVal) (hx : x.InRange T) (hy : y.InRange T) :
    CircVal.Pdist T x y < T.R := by
  have hd : T.R = T.H - T.L := rfl
  obtain ⟨hx0, hx1⟩ := hx
  obtain ⟨hy0, hy1⟩ := hy
  unfold CircVal.Pdist
  split_ifs with h
  · linarith
  · push_neg at h; linarith

theorem clamp_of_mem (T : Range) (r : ℚ) (h0 : 0 ≤ r) (h1 : r ≤ T.R) :
    CircArcLen.ofRaw T r = ⟨r⟩ := by
  simp [CircArcLen.ofRaw, h0, h1]

theorem clamp_inRange (T : Range) (r : ℚ) (hR : 0 < T.R) : (CircArcLen.ofRaw T r).InRange T := by
  constructor
  · show 0 ≤ min (max 0 r) T.R
    exact le_min (le_max_left 0 r) hR.le
  · show min (max 0 r) T.R ≤ T.R
    exact min_le_right _ _

theorem Inv_c2 (T : Range) (a : CircArc) (hR : 0 < T.R) (ha : a.Inv T) : a.c2.InRange T := by
  rw [ha.2.2]; exact Wrap_inRange T _ hR

theorem Inv_inRange (T : Range) (a : CircArc) (hR : 0 < T.R) (ha : a.Inv T) : a.InRange T :=
  ⟨ha.1, Inv_c2 T a hR ha, ha.2.1⟩

theorem Inv_full (T : Range) (a : CircArc) (hR : 0 < T.R) (ha : a.Inv T) (hl : a.l.l = T.R) :
    a.c2 = a.c1 := by
  obtain ⟨⟨h0, h1⟩, -, h2⟩ := ha
  have hd : T.R = T.H - T.L := rfl
  have h := Wrap_of_shift T (a.c1.val + a.l.l) 1 hR (by push_cast; linarith)
    (by push_cast; linarith)
  rw [h2]
  cases hc : a.c1 with
  | mk v =>
    rw [hc] at h
    simp only [CircVal.ofRaw, h, CircVal.mk.injEq]
    push_cast; linarith

theorem Inv_Pdist (T : Range) (a : CircArc) (hR : 0 < T.R) (ha : a.Inv T) (hl : a.l.l ≠ T.R) :
    CircVal.Pdist T a.c1 a.c2 = a.l.l := by
  obtain ⟨⟨h0, h1⟩, ⟨hl0, hl1⟩, h2⟩ := ha
  have hd : T.R = T.H - T.L := rfl
  have hlt : a.l.l < T.R := lt_of_le_of_ne hl1 hl
  rw [h2]
  by_cases hc : a.c1.val + a.l.l < T.H
  · have h := Wrap_of_shift T (a.c1.val + a.l.l) 0 hR (by push_cast; linarith)
      (by push_cast; linarith)
    simp only [CircVal.Pdist, CircVal.ofRaw, h]
    push_cast
    rw [if_pos (by linarith)]; ring
  · push_neg at hc
    have h := Wrap_of_shift T (a.c1.val + a.l.l) 1 hR (by push_cast; linarith)
      (by push_cast; linarith)
    simp only [CircVal.Pdist, CircVal.ofRaw, h]
    push_cast
    rw [if_neg (by linarith)]; ring

theorem mkValLen_Inv (T : Range) (c : CircVal) (len : CircArcLen) (hc : c.InRange T)
    (hl : len.InRange T) : (CircArc.mkValLen T c len).Inv T :=
  ⟨hc, hl, rfl⟩

theorem mkRaw_Inv (T : Range) (fc1 fl : ℚ) (hR : 0 < T.R) : (CircArc.mkRaw T fc1 fl).Inv T := by
  refine ⟨Wrap_inRange T fc1 hR, clamp_inRange T fl hR, ?_⟩
  show CircVal.ofRaw T (fc1 + (CircArcLen.ofRaw T fl).l)
    = CircVal.ofRaw T (CircVal.Wrap T fc1 + (CircArcLen.ofRaw T fl).l)
  simp only [CircVal.ofRaw, Wrap_add_wrap T fc1 _ hR]

theorem mkDefault_Inv (T : Range) (hR : 0 < T.R) : (CircArc.mkDefault T).Inv T := by
  have hz : CircArcLen.ofRaw T 0 = ⟨0⟩ := clamp_of_mem T 0 le_rfl hR.le
  refine ⟨Wrap_inRange T T.Z hR, ?_, ?_⟩
  · show (CircArcLen.ofRaw T 0).InRange T
    exact clamp_inRange T 0 hR
  · show CircVal.ofRaw T T.Z = CircVal.ofRaw T (CircVal.Wrap T T.Z + (CircArcLen.ofRaw T 0).l)
    rw [hz]
    have h := Wrap_add_wrap T T.Z 0 hR
    simp only [add_zero] at h
    simp only [CircVal.ofRaw, add_zero, h]

theorem mkValVal_Inv (T : Range) (s e : CircVal) (hR : 0 < T.R) (hs : s.InRange T)
    (he : e.InRange T) : (CircArc.mkValVal T s e).Inv T := by
  have hp0 := Pdist_nonneg T s e hs he
  have hp1 := Pdist_lt T s e hs he
  have hcl : CircArcLen.ofRaw T (CircVal.Pdist T s e) = ⟨CircVal.Pdist T s e⟩ :=
    clamp_of_mem T _ hp0 hp1.le
  refine ⟨hs, ?_, ?_⟩
  · show (CircArcLen.ofRaw T (CircVal.Pdist T s e)).InRange T
    exact clamp_inRange T _ hR
  · show e = CircVal.ofRaw T (s.val + (CircArcLen.ofRaw T (CircVal.Pdist T s e)).l)
    rw [hcl]
    obtain ⟨he0, he1⟩ := he
    cases e with
    | mk v =>
      simp only [CircVal.ofRaw, CircVal.mk.injEq]
      by_cases h : v ≥ s.val
      · have hw := Wrap_of_shift T (s.val + CircVal.Pdist T s ⟨v⟩) 0 hR
          (by simp only [CircVal.Pdist, if_pos h]; push_cast; linarith)
          (by simp only [CircVal.Pdist, if_pos h]; push_cast; linarith)
        rw [hw]; simp only [CircVal.Pdist, if_pos h]; push_cast; ring
      · have hw := Wrap_of_shift T (s.val + CircVal.Pdist T s ⟨v⟩) 1 hR
          (by simp only [CircVal.Pdist, if_neg h]; push_cast; linarith)
          (by simp only [CircVal.Pdist, if_neg h]; push_cast; linarith)
        rw [hw]; simp only [CircVal.Pdist, if_neg h]; push_cast; ring

theorem Built_Inv (T : Range) (a : CircArc) (hR : 0 < T.R) (ha : CircArc.Built T a) :
    a.Inv T := by
  cases ha with
  | default => exact mkDefault_Inv T hR
  | valLen c len hc hl => exact mkValLen_Inv T c len hc hl
  | raw fc1 fl => exact mkRaw_Inv T fc1 fl hR
  | valVal s e hs he => exact mkValVal_Inv T s e hR hs he

theorem Pdist_sub (T : Range) (o u v : CircVal) (ho : o.InRange T) (hu : u.InRange T)
    (hv : v.InRange T) (h : CircVal.Pdist T o u ≤ CircVal.Pdist T o v) :
    CircVal.Pdist T u v = CircVal.Pdist T o v - CircVal.Pdist T o u := by
  have hd : T.R = T.H - T.L := rfl
  obtain ⟨ho0, ho1⟩ := ho
  obtain ⟨hu0, hu1⟩ := hu
  obtain ⟨hv0, hv1⟩ := hv
  unfold CircVal.Pdist at *
  split_ifs at h ⊢ <;> linarith

theorem Pdist_first (T : Range) (x y p : CircVal) (hx : x.InRange T) (hy : y.InRange T)
    (hp : p.InRange T) :
    CircVal.Pdist T x y ≤ CircVal.Pdist T x p ∨ CircVal.Pdist T y x ≤ CircVal.Pdist T y p := by
  have hd : T.R = T.H - T.L := rfl
  obtain ⟨hx0, hx1⟩ := hx
  obtain ⟨hy0, hy1⟩ := hy
  obtain ⟨hp0, hp1⟩ := hp
  by_cases h : CircVal.Pdist T x y ≤ CircVal.Pdist T x p
  · exact Or.inl h
  · right
    unfold CircVal.Pdist at *
    split_ifs at h ⊢ <;> linarith

theorem Pdist_eq_zero (T : Range) (x y : CircVal) (hx : x.InRange T) (hy : y.InRange T)
    (h : CircVal.Pdist T x y = 0) : x = y := by
  have hd : T.R = T.H - T.L := rfl
  obtain ⟨hx0, hx1⟩ := hx
  obtain ⟨hy0, hy1⟩ := hy
  cases x with
  | mk xv =>
    cases y with
    | mk yv =>
      simp only [CircVal.Pdist] at h
      simp only [CircVal.mk.injEq]
      split_ifs at h <;> linarith

theorem Apart_exact (T : Range) (o u v : CircVal) (ho : o.InRange T) (hu : u.InRange T)
    (hv : v.InRange T) (hs : CircVal.Apart T u v)
    (h : CircVal.Pdist T o v - CircVal.Pdist T o u > -eps) :
    CircVal.Pdist T o u ≤ CircVal.Pdist T o v := by
  by_contra hc
  push_neg at hc
  have hsub := Pdist_sub T o v u ho hv hu hc.le
  rcases hs with rfl | ⟨-, h2⟩
  · linarith
  · linarith

theorem Contains_start (T : Range) (a : CircArc) (hl : 0 ≤ a.l.l) :
    CircArc.Contains T a a.c1 = true := by
  have := eps_pos
  simp only [CircArc.Contains, Pdist_self, decide_eq_true_eq]
  linarith

theorem Contains_end (T : Range) (a : CircArc) (hR : 0 < T.R) (ha : a.Inv T) :
    CircArc.Contains T a a.c2 = true := by
  have := eps_pos
  have hl0 : 0 ≤ a.l.l := ha.2.1.1
  by_cases hl : a.l.l = T.R
  · rw [Inv_full T a hR ha hl]; exact Contains_start T a hl0
  · simp only [CircArc.Contains, Inv_Pdist T a hR ha hl, decide_eq_true_eq]
    linarith

theorem eq_true_cases (T : Range) (a b : CircArc) (h : CircArc.eq T a b = true) :
    (a.l.l = T.R ∧ b.l.l = T.R) ∨ (a.c1 = b.c1 ∧ a.l = b.l) := by
  unfold CircArc.eq at h
  split_ifs at h with hf
  · exact Or.inl hf
  · simp only [Bool.and_eq_true, decide_eq_true_eq] at h
    exact Or.inr h

theorem ContainsArc_of_eq (T : Range) (a b : CircArc) (hR : 0 < T.R)
    (hb : b.Inv T) (h : CircArc.eq T a b = true) : CircArc.ContainsArc T a b = true := by
  have := eps_pos
  by_cases fa : a.l.l = T.R
  · simp [CircArc.ContainsArc, fa]
  · rcases eq_true_cases T a b h with ⟨h1, -⟩ | ⟨hc, hl⟩
    · exact absurd h1 fa
    · have fb : ¬ b.l.l = T.R := by rw [← hl]; exact fa
      have hlb := Inv_Pdist T b hR hb fb
      have hl0 : 0 ≤ b.l.l := hb.2.1.1
      simp only [CircArc.ContainsArc, fa, fb, if_false, Bool.and_eq_true, decide_eq_true_eq,
        hc, Pdist_self, hlb, hl]
      constructor <;> linarith

theorem eq_refl_true (T : Range) (a : CircArc) : CircArc.eq T a a = true := by
  simp [CircArc.eq]

theorem eq_symm_true (T : Range) (a b : CircArc) (h : CircArc.eq T a b = true) :
    CircArc.eq T b a = true := by
  rcases eq_true_cases T a b h with ⟨h1, h2⟩ | ⟨hc, hl⟩
  · simp [CircArc.eq, h1, h2]
  · simp [CircArc.eq, hc, hl]

theorem Pdist_compl (T : Range) (x y : CircVal) (h : 0 < CircVal.Pdist T y x) :
    CircVal.Pdist T x y = T.R - CircVal.Pdist T y x := by
  unfold CircVal.Pdist at *
  split_ifs at h ⊢ <;> linarith

theorem fStep_pos (T : Range) (hs : eps ≤ fStep T) : 0 < fStep T :=
  lt_of_lt_of_le eps_pos hs

theorem R_eq_steps (T : Range) : T.R = 36 * fStep T := by
  unfold fStep nSteps; push_cast; ring

theorem arc_c1 (T : Range) (i j : ℕ) (hs : eps ≤ fStep T) (hi : i < 36) :
    (CircArcTester.arc T i j).c1 = ⟨T.L + i * fStep T⟩ := by
  have hp := fStep_pos T hs
  have hR := R_eq_steps T
  have hd : T.R = T.H - T.L := rfl
  have hi2 : (i : ℚ) + 1 ≤ 36 := by exact_mod_cast hi
  have hi0 : (0 : ℚ) ≤ i := Nat.cast_nonneg i
  have h := Wrap_of_shift T (T.L + i * fStep T) 0 (by rw [hR]; linarith)
    (by push_cast; nlinarith) (by push_cast; nlinarith)
  show CircVal.ofRaw T (T.L + i * fStep T) = _
  simp only [CircVal.ofRaw, h]
  push_cast; ring_nf

theorem arc_l (T : Range) (i j : ℕ) (hs : eps ≤ fStep T) (hj : j ≤ 36) :
    (CircArcTester.arc T i j).l = ⟨j * fStep T⟩ := by
  have hp := fStep_pos T hs
  have hR := R_eq_steps T
  have hj2 : (j : ℚ) ≤ 36 := by exact_mod_cast hj
  have hj0 : (0 : ℚ) ≤ j := Nat.cast_nonneg j
  show CircArcLen.ofRaw T (j * fStep T) = _
  exact clamp_of_mem T _ (by positivity) (by rw [hR]; nlinarith)

theorem arc_c2 (T : Range) (i j : ℕ) (hs : eps ≤ fStep T) (hj : j ≤ 36) :
    (CircArcTester.arc T i j).c2 = ⟨T.L + ((i + j) % 36 : ℕ) * fStep T⟩ := by
  have hp := fStep_pos T hs
  have hR := R_eq_steps T
  have hd : T.R = T.H - T.L := rfl
  have hl := arc_l T i j hs hj
  obtain ⟨q, r, hr, hqr, hmod⟩ : ∃ q r : ℕ, r < 36 ∧ i + j = 36 * q + r ∧ (i + j) % 36 = r :=
    ⟨(i + j) / 36, (i + j) % 36, Nat.mod_lt _ (by norm_num), (Nat.div_add_mod _ _).symm, rfl⟩
  rw [hmod]
  have hdm : ((i : ℚ) + j) = 36 * q + r := by exact_mod_cast hqr
  have hm : (r : ℚ) + 1 ≤ 36 := by exact_mod_cast hr
  have hm0 : (0 : ℚ) ≤ r := Nat.cast_nonneg _
  have hval : T.L + i * fStep T + j * fStep T - T.R * ((q : ℤ) : ℚ) = T.L + r * fStep T := by
    rw [hR, Int.cast_natCast]
    have : ((i : ℚ) + j) * fStep T = (36 * q + r) * fStep T := by rw [hdm]
    linarith
  have h := Wrap_of_shift T (T.L + i * fStep T + j * fStep T) (q : ℤ)
    (by rw [hR]; linarith) (by rw [hval]; nlinarith) (by rw [hval]; nlinarith)
  have hc2 : (CircArcTester.arc T i j).c2
      = CircVal.ofRaw T (T.L + i * fStep T + (CircArcTester.arc T i j).l.l) := rfl
  rw [hc2, hl]
  simp only [CircVal.ofRaw, h, hval]

theorem Pdist_grid (T : Range) (m n : ℕ) (hs : eps ≤ fStep T) (hm : m < 36) (hn : n < 36) :
    CircVal.Pdist T ⟨T.L + m * fStep T⟩ ⟨T.L + n * fStep T⟩
      = ((n + 36 - m) % 36 : ℕ) * fStep T := by
  have hp := fStep_pos T hs
  have hR := R_eq_steps T
  by_cases hmn : m ≤ n
  · have hmod : (n + 36 - m) % 36 = n - m := by omega
    have hc : (m : ℚ) ≤ n := by exact_mod_cast hmn
    rw [hmod, Nat.cast_sub hmn]
    simp only [CircVal.Pdist]
    rw [if_pos (by nlinarith)]
    ring
  · push_neg at hmn
    have hmod : (n + 36 - m) % 36 = n + 36 - m := by omega
    have hc : (n : ℚ) < m := by exact_mod_cast hmn
    rw [hmod, Nat.cast_sub (by omega)]
    simp only [CircVal.Pdist]
    rw [if_neg (by push_neg; nlinarith), hR]
    push_cast; ring

theorem step_gt (s : ℚ) (x y : ℕ) (hs : eps ≤ s) : (x * s - y * s > -eps) ↔ y ≤ x := by
  have := eps_pos
  constructor
  · intro h
    by_contra hc
    push_neg at hc
    have h1 : (x : ℚ) + 1 ≤ y := by exact_mod_cast hc
    nlinarith
  · intro h
    have h1 : (y : ℚ) ≤ x := by exact_mod_cast h
    nlinarith

theorem step_full (T : Range) (j : ℕ) (hs : eps ≤ fStep T) : j * fStep T = T.R ↔ j = 36 := by
  have hp := fStep_pos T hs
  rw [R_eq_steps T]
  constructor
  · intro h
    have h1 : (j : ℚ) = 36 := by
      have := mul_right_cancel₀ hp.ne' h
      exact this
    exact_mod_cast h1
  · intro h
    rw [h]; norm_num

theorem ContainsArc_grid (T : Range) (i j k l : ℕ) (hs : eps ≤ fStep T) (hi : i < 36)
    (hj : j ≤ 36) (hk : k < 36) (hl : l ≤ 36) :
    CircArc.ContainsArc T (CircArcTester.arc T i j) (CircArcTester.arc T k l)
      = stepContains j ((k + 36 - i) % 36) l := by
  have hkl : (k + l) % 36 < 36 := Nat.mod_lt _ (by norm_num)
  unfold CircArc.ContainsArc stepContains
  simp only [arc_c1 T i j hs hi, arc_c1 T k l hs hk, arc_c2 T k l hs hl, arc_l T i j hs hj,
    arc_l T k l hs hl, step_full T j hs, step_full T l hs, Pdist_grid T i k hs hi hk,
    Pdist_grid T i ((k + l) % 36) hs hi hkl, step_gt (fStep T) _ _ hs]
  have he : ((k + l) % 36 + 36 - i) % 36 = ((k + 36 - i) % 36 + l) % 36 := by omega
  rw [he]

theorem eq_grid (T : Range) (i j k l : ℕ) (hs : eps ≤ fStep T) (hi : i < 36)
    (hj : j ≤ 36) (hk : k < 36) (hl : l ≤ 36) :
    CircArc.eq T (CircArcTester.arc T i j) (CircArcTester.arc T k l) = true
      ↔ (j = 36 ∧ l = 36) ∨ (i = k ∧ j = l) := by
  have hp := fStep_pos T hs
  have h1 : (⟨T.L + i * fStep T⟩ : CircVal) = ⟨T.L + k * fStep T⟩ ↔ i = k := by
    simp only [CircVal.mk.injEq, add_right_inj]
    constructor
    · intro h
      have := mul_right_cancel₀ hp.ne' h
      exact_mod_cast this
    · intro h; rw [h]
  have h2 : (⟨j * fStep T⟩ : CircArcLen) = ⟨l * fStep T⟩ ↔ j = l := by
    simp only [CircArcLen.mk.injEq]
    constructor
    · intro h
      have := mul_right_cancel₀ hp.ne' h
      exact_mod_cast this
    · intro h; rw [h]
  unfold CircArc.eq
  simp only [arc_c1 T i j hs hi, arc_c1 T k l hs hk, arc_l T i j hs hj, arc_l T k l hs hl,
    step_full T j hs, step_full T l hs, h1, h2]
  split_ifs with h
  · simp [h]
  · simp only [Bool.and_eq_true, decide_eq_true_eq]
    constructor
    · intro h3; exact Or.inr h3
    · rintro (h3 | h3)
      · exact absurd h3 h
      · exact h3

set_option maxRecDepth 100000 in
theorem shift_perm :
    ∀ i < 36, ((List.range 36).map fun k => (k + 36 - i) % 36).Perm (List.range 36) := by
  decide!

theorem shift_sum (i : ℕ) (hi : i < 36) (g : ℕ → ℕ) :
    ((List.range 36).map fun k => g ((k + 36 - i) % 36)).sum = ((List.range 36).map g).sum := by
  have h := ((shift_perm i hi).map g).sum_eq
  rw [List.map_map] at h
  exact h

theorem count_eq_steps (T : Range) (F : CircArc → CircArc → Bool) (G : ℕ → ℕ → ℕ → Bool)
    (h : ∀ i j k l, i < 36 → j < 37 → k < 36 → l < 37 →
      F (CircArcTester.arc T i j) (CircArcTester.arc T k l) = G j ((k + 36 - i) % 36) l) :
    CircArcTester.count T F = 36 * stepCount G := by
  have hrow : ∀ i ∈ List.range 36,
      ((List.range 37).map fun j => ((List.range 36).map fun k =>
        ((List.range 37).countP fun l =>
          F (CircArcTester.arc T i j) (CircArcTester.arc T k l))).sum).sum = stepCount G := by
    intro i hi
    have hi2 := List.mem_range.mp hi
    unfold stepCount
    refine congrArg List.sum (List.map_congr_left ?_)
    intro j hj
    have hj2 := List.mem_range.mp hj
    rw [← shift_sum i hi2 (fun d => (List.range 37).countP fun l => G j d l)]
    refine congrArg List.sum (List.map_congr_left ?_)
    intro k hk
    have hk2 := List.mem_range.mp hk
    apply List.countP_congr
    intro l hl
    rw [h i j k l hi2 hj2 hk2 (List.mem_range.mp hl)]
  show ((List.range 36).map fun i => ((List.range 37).map fun j =>
    ((List.range 36).map fun k => ((List.range 37).countP fun l =>
      F (CircArcTester.arc T i j) (CircArcTester.arc T k l))).sum).sum).sum = 36 * stepCount G
  rw [List.map_congr_left hrow]
  simp only [List.map_const', List.sum_replicate, List.length_range, smul_eq_mul]

set_option maxRecDepth 100000 in
theorem stepCount_contains : stepCount stepContains = 9768 := by
  decide!

set_option maxRecDepth 100000 in
theorem stepCount_contained :
    stepCount (fun j d l => stepContains l ((36 - d) % 36) j) = 9768 := by
  decide!

/-! ## Rounded sums -/

theorem binade_eq (x : ℚ) (e : ℤ) (he : -1022 ≤ e) (h1 : (2 : ℚ) ^ e ≤ |x|)
    (h2 : |x| < (2 : ℚ) ^ (e + 1)) : binade x = e := by
  have hpos : 0 < |x| := lt_of_lt_of_le (by positivity) h1
  have hb : (1 : ℕ) < 2 := by norm_num
  have a1 : e ≤ Int.log 2 |x| := (Int.zpow_le_iff_le_log hb hpos).mp (by exact_mod_cast h1)
  have a2 : Int.log 2 |x| < e + 1 := (Int.lt_zpow_iff_log_lt hb hpos).mp (by exact_mod_cast h2)
  unfold binade
  omega

theorem rd64_binade (x : ℚ) (e : ℤ) (he : -1022 ≤ e) (h1 : (2 : ℚ) ^ e ≤ |x|)
    (h2 : |x| < (2 : ℚ) ^ (e + 1)) :
    rd64 x = roundEven (x / 2 ^ (e - 52)) * 2 ^ (e - 52) := by
  unfold rd64
  rw [binade_eq x e he h1 h2]

theorem rd64_zero : rd64 0 = 0 := by
  norm_num [rd64, roundEven]

theorem mkRawD_wide :
    CircArc.mkRawD WideRange 524288 (5 / 68719476736)
      = ⟨⟨524288⟩, ⟨524288 + 1 / 8589934592⟩, ⟨5 / 68719476736⟩⟩ := by
  have h : rd64 (524288 + 5 / 68719476736) = 524288 + 1 / 8589934592 := by
    rw [rd64_binade _ 19 (by norm_num) (by norm_num [abs_of_pos]) (by norm_num [abs_of_pos])]
    norm_num [roundEven]
  have hl : CircArcLen.ofRaw WideRange (5 / 68719476736) = ⟨5 / 68719476736⟩ := by
    norm_num [CircArcLen.ofRaw, WideRange, Range.R]
  unfold CircArc.mkRawD
  rw [hl, h]
  norm_num [CircVal.ofRaw, CircVal.Wrap, Mod, WideRange, Range.R]

theorem mkValLenD_wide :
    CircArc.mkValLenD WideRange ⟨524288⟩ ⟨5 / 68719476736⟩
      = ⟨⟨524288⟩, ⟨524288 + 1 / 8589934592⟩, ⟨5 / 68719476736⟩⟩ := by
  have h : rd64 (524288 + 5 / 68719476736) = 524288 + 1 / 8589934592 := by
    rw [rd64_binade _ 19 (by norm_num) (by norm_num [abs_of_pos]) (by norm_num [abs_of_pos])]
    norm_num [roundEven]
  unfold CircArc.mkValLenD
  rw [h]
  norm_num [CircVal.ofRaw, CircVal.Wrap, Mod, WideRange, Range.R]

theorem mkRawD_wide_next :
    CircArc.mkRawD WideRange (524288 + 1 / 8589934592) 10
      = ⟨⟨524288 + 1 / 8589934592⟩, ⟨524298 + 1 / 8589934592⟩, ⟨10⟩⟩ := by
  have h : rd64 (524288 + 1 / 8589934592 + 10) = 524298 + 1 / 8589934592 := by
    rw [rd64_binade _ 19 (by norm_num) (by norm_num [abs_of_pos]) (by norm_num [abs_of_pos])]
    norm_num [roundEven]
  have hl : CircArcLen.ofRaw WideRange 10 = ⟨10⟩ := by
    norm_num [CircArcLen.ofRaw, WideRange, Range.R]
  unfold CircArc.mkRawD
  rw [hl, h]
  norm_num [CircVal.ofRaw, CircVal.Wrap, Mod, WideRange, Range.R]

theorem fStepD_wide : fStepD WideRange = 2001599834386887 / 68719476736 := by
  have h : WideRange.R / (nSteps : ℚ) = 1048576 / 36 := by
    norm_num [WideRange, Range.R, nSteps]
  unfold fStepD
  rw [h, rd64_binade _ 14 (by norm_num) (by norm_num [abs_of_pos]) (by norm_num [abs_of_pos])]
  norm_num [roundEven]

theorem arcD_wide :
    CircArcTester.arcD WideRange 1 4
      = ⟨⟨2001599834386887 / 68719476736⟩, ⟨5003999585967218 / 34359738368⟩,
          ⟨2001599834386887 / 17179869184⟩⟩ := by
  have h1 : rd64 (((1 : ℕ) : ℚ) * (2001599834386887 / 68719476736))
      = 2001599834386887 / 68719476736 := by
    rw [rd64_binade _ 14 (by norm_num) (by norm_num [abs_of_pos]) (by norm_num [abs_of_pos])]
    norm_num [roundEven]
  have h2 : rd64 (WideRange.L + 2001599834386887 / 68719476736)
      = 2001599834386887 / 68719476736 := by
    rw [rd64_binade _ 14 (by norm_num) (by norm_num [WideRange, abs_of_pos])
      (by norm_num [WideRange, abs_of_pos])]
    norm_num [roundEven, WideRange]
  have h3 : rd64 (((4 : ℕ) : ℚ) * (2001599834386887 / 68719476736))
      = 2001599834386887 / 17179869184 := by
    rw [rd64_binade _ 16 (by norm_num) (by norm_num [abs_of_pos]) (by norm_num [abs_of_pos])]
    norm_num [roundEven]
  have hl : CircArcLen.ofRaw WideRange (2001599834386887 / 17179869184)
      = ⟨2001599834386887 / 17179869184⟩ := by
    norm_num [CircArcLen.ofRaw, WideRange, Range.R]
  have h4 : rd64 (2001599834386887 / 68719476736 + 2001599834386887 / 17179869184)
      = 5003999585967218 / 34359738368 := by
    rw [rd64_binade _ 17 (by norm_num) (by norm_num [abs_of_pos]) (by norm_num [abs_of_pos])]
    norm_num [roundEven]
  unfold CircArcTester.arcD
  rw [fStepD_wide, h1, h2, h3]
  unfold CircArc.mkRawD
  rw [hl, h4]
  norm_num [CircVal.ofRaw, CircVal.Wrap, Mod, WideRange, Range.R]

theorem mkRawD_deg :
    CircArc.mkRawD UnsignedDegRange 524288 (5 / 68719476736)
      = ⟨⟨128⟩, ⟨128 + 1 / 8589934592⟩, ⟨5 / 68719476736⟩⟩ := by
  have h : rd64 (524288 + 5 / 68719476736) = 524288 + 1 / 8589934592 := by
    rw [rd64_binade _ 19 (by norm_num) (by norm_num [abs_of_pos]) (by norm_num [abs_of_pos])]
    norm_num [roundEven]
  have hl : CircArcLen.ofRaw UnsignedDegRange (5 / 68719476736) = ⟨5 / 68719476736⟩ := by
    norm_num [CircArcLen.ofRaw, UnsignedDegRange, Range.R]
  unfold CircArc.mkRawD
  rw [hl, h]
  norm_num [CircVal.ofRaw, CircVal.Wrap, Mod, UnsignedDegRange, Range.R]

theorem mkRawD_deg_next :
    CircArc.mkRawD UnsignedDegRange (128 + 1 / 8589934592) 10
      = ⟨⟨128 + 1 / 8589934592⟩, ⟨138 + 1 / 8589934592⟩, ⟨10⟩⟩ := by
  have h : rd64 (128 + 1 / 8589934592 + 10) = 138 + 1 / 8589934592 := by
    rw [rd64_binade _ 7 (by norm_num) (by norm_num [abs_of_pos]) (by norm_num [abs_of_pos])]
    norm_num [roundEven]
  have hl : CircArcLen.ofRaw UnsignedDegRange 10 = ⟨10⟩ := by
    norm_num [CircArcLen.ofRaw, UnsignedDegRange, Range.R]
  unfold CircArc.mkRawD
  rw [hl, h]
  norm_num [CircVal.ofRaw, CircVal.Wrap, Mod, UnsignedDegRange, Range.R]

theorem mkRawD_wide_zero :
    CircArc.mkRawD WideRange 524288 0 = ⟨⟨524288⟩, ⟨524288⟩, ⟨0⟩⟩ := by
  have h : rd64 (524288 + 0) = 524288 := by
    rw [rd64_binade _ 19 (by norm_num) (by norm_num [abs_of_pos]) (by norm_num [abs_of_pos])]
    norm_num [roundEven]
  have hl : CircArcLen.ofRaw WideRange 0 = ⟨0⟩ := by
    norm_num [CircArcLen.ofRaw, WideRange, Range.R]
  unfold CircArc.mkRawD
  rw [hl, h]
  norm_num [CircVal.ofRaw, CircVal.Wrap, Mod, WideRange, Range.R]

theorem mkRawD_wide_short :
    CircArc.mkRawD WideRange 524288 (3 / 68719476736)
      = ⟨⟨524288⟩, ⟨524288⟩, ⟨3 / 68719476736⟩⟩ := by
  have h : rd64 (524288 + 3 / 68719476736) = 524288 := by
    rw [rd64_binade _ 19 (by norm_num) (by norm_num [abs_of_pos]) (by norm_num [abs_of_pos])]
    norm_num [roundEven]
  have hl : CircArcLen.ofRaw WideRange (3 / 68719476736) = ⟨3 / 68719476736⟩ := by
    norm_num [CircArcLen.ofRaw, WideRange, Range.R]
  unfold CircArc.mkRawD
  rw [hl, h]
  norm_num [CircVal.ofRaw, CircVal.Wrap, Mod, WideRange, Range.R]

theorem endDev_bounds (T : Range) (a : CircArc) :
    a.l.l ≤ CircVal.Pdist T a.c1 a.c2 + a.endDev T ∧
      CircVal.Pdist T a.c1 a.c2 - a.endDev T ≤ a.l.l := by
  have h1 := le_abs_self (CircVal.Pdist T a.c1 a.c2 - a.l.l)
  have h2 := neg_abs_le (CircVal.Pdist T a.c1 a.c2 - a.l.l)
  unfold CircArc.endDev
  constructor <;> linarith

theorem ContainsArcP_walk (T : Range) (pd : CircVal → CircVal → ℚ) (ρ : ℚ) (a b : CircArc)
    (hpd : ∀ x y : CircVal, x.InRange T → y.InRange T → |pd x y - CircVal.Pdist T x y| ≤ ρ)
    (ha : a.c1.InRange T) (hb : b.InRange T) (fa : a.l.l ≠ T.R)
    (h : CircArc.ContainsArcP pd T a b = true) :
    b.l.l ≠ T.R ∧
      ((CircVal.Pdist T a.c1 b.c1 ≤ CircVal.Pdist T a.c1 b.c2 ∧
          CircVal.Pdist T b.c1 b.c2
            = CircVal.Pdist T a.c1 b.c2 - CircVal.Pdist T a.c1 b.c1 ∧
          a.l.l - CircVal.Pdist T a.c1 b.c2 > -eps - ρ) ∨
        T.R - eps - 2 * ρ < CircVal.Pdist T b.c1 b.c2) := by
  by_cases fb : b.l.l = T.R
  · simp [CircArc.ContainsArcP, fa, fb] at h
  · refine ⟨fb, ?_⟩
    simp only [CircArc.ContainsArcP, fa, fb, if_false, Bool.and_eq_true,
      decide_eq_true_eq] at h
    obtain ⟨h1, h2⟩ := h
    obtain ⟨e1, e2⟩ := abs_le.mp (hpd a.c1 b.c1 ha hb.1)
    obtain ⟨e3, e4⟩ := abs_le.mp (hpd a.c1 b.c2 ha hb.2.1)
    by_cases hc : CircVal.Pdist T a.c1 b.c1 ≤ CircVal.Pdist T a.c1 b.c2
    · exact Or.inl ⟨hc, Pdist_sub T a.c1 b.c1 b.c2 ha hb.1 hb.2.1 hc, by linarith⟩
    · right
      push_neg at hc
      have d := Pdist_sub T a.c1 b.c2 b.c1 ha hb.2.1 hb.1 hc.le
      have hpos : 0 < CircVal.Pdist T b.c2 b.c1 := by linarith
      have hcm := Pdist_compl T b.c1 b.c2 hpos
      linarith

theorem ContainsArcP_exact (T : Range) (a b : CircArc) :
    CircArc.ContainsArcP (CircVal.Pdist T) T a b = CircArc.ContainsArc T a b := rfl

/-! ## Point containment -/

/-- C1 (as amended): `Contains(point)` returns true exactly when
`GetL() - Pdist(GetC1(), p)` is strictly greater than `-1e-12`. -/
theorem C1_Contains_iff_gt (T : Range) (a : CircArc) (p : CircVal) :
    CircArc.Contains T a p = true ↔ a.GetL - CircVal.Pdist T a.GetC1 p > -eps := by
  simp [CircArc.Contains, CircArc.GetL, CircArc.GetC1]

/-- C1 (counterexample): in `[0, 360)` the arc `CircArc(0, 0)` and the point `1e-12` (the
double of the literal) have `GetL() - Pdist(GetC1(), p) = -1e-12`, which satisfies
`≥ -1e-12`, yet `Contains` returns false; every value involved is a double and no operation
rounds. -/
theorem C1_boundary_not_contained :
    CircArc.Contains UnsignedDegRange (CircArc.mkRaw UnsignedDegRange 0 0)
        (CircVal.ofRaw UnsignedDegRange eps) = false ∧
      (CircArc.mkRaw UnsignedDegRange 0 0).GetL
        - CircVal.Pdist UnsignedDegRange (CircArc.mkRaw UnsignedDegRange 0 0).GetC1
            (CircVal.ofRaw UnsignedDegRange eps) ≥ -eps := by
  norm_num [CircArc.Contains, CircArc.mkRaw, CircVal.ofRaw, CircVal.Wrap, Mod, Range.R,
    UnsignedDegRange, CircVal.Pdist, CircArcLen.ofRaw, eps, CircArc.GetL, CircArc.GetC1]

/-- With the sum of the constructor taken exactly, an arc built by a constructor of its own
range contains its start point and its end point; in `[0, 360)` the arc `CircArc(100, 100)` contains 100, 150 and 200 and not 250. -/
theorem exact_endpoints_contained :
    (∀ (T : Range) (a : CircArc), 0 < T.R → CircArc.Built T a →
      CircArc.Contains T a a.GetC1 = true ∧ CircArc.Contains T a a.GetC2 = true) ∧
    CircArc.Contains UnsignedDegRange (CircArc.mkRaw UnsignedDegRange 100 100)
      (CircVal.ofRaw UnsignedDegRange 100) = true ∧
    CircArc.Contains UnsignedDegRange (CircArc.mkRaw UnsignedDegRange 100 100)
      (CircVal.ofRaw UnsignedDegRange 150) = true ∧
    CircArc.Contains UnsignedDegRange (CircArc.mkRaw UnsignedDegRange 100 100)
      (CircVal.ofRaw UnsignedDegRange 200) = true ∧
    CircArc.Contains UnsignedDegRange (CircArc.mkRaw UnsignedDegRange 100 100)
      (CircVal.ofRaw UnsignedDegRange 250) = false := by
  refine ⟨?_, ?_, ?_, ?_, ?_⟩
  · intro T a hR ha
    have hi := Built_Inv T a hR ha
    exact ⟨Contains_start T a hi.2.1.1, Contains_end T a hR hi⟩
  all_goals
    norm_num [CircArc.Contains, CircArc.mkRaw, CircVal.ofRaw, CircVal.Wrap, Mod, Range.R,
      UnsignedDegRange, CircVal.Pdist, CircArcLen.ofRaw, eps]

/-- C2 (failing input): in `[0, 2^20)` the call `CircArc(524288, 5 * 2^-36)` stores the end
point `524288 + 2^-33`, the double nearest to the sum, and the arc contains its start point
but not this end point: `l - Pdist(c1, c2) = -3 * 2^-36`, below `-1e-12`; the constructor
from the circular value 524288 and the arc length `5 * 2^-36` gives the same arc.  In
`[0, 360)` the call `CircArc(524288, 5 * 2^-36)` stores the start point 128 and the end point
`128 + 2^-33`, which the arc does not contain either. -/
theorem C2_end_point_not_contained :
    ((CircArc.mkRawD WideRange 524288 (5 / 68719476736)).GetC2 = ⟨524288 + 1 / 8589934592⟩ ∧
      CircArc.Contains WideRange (CircArc.mkRawD WideRange 524288 (5 / 68719476736))
        (CircArc.mkRawD WideRange 524288 (5 / 68719476736)).GetC1 = true ∧
      CircArc.Contains WideRange (CircArc.mkRawD WideRange 524288 (5 / 68719476736))
        (CircArc.mkRawD WideRange 524288 (5 / 68719476736)).GetC2 = false) ∧
    (CircArc.mkValLenD WideRange ⟨524288⟩ ⟨5 / 68719476736⟩
        = CircArc.mkRawD WideRange 524288 (5 / 68719476736) ∧
      CircArc.Contains WideRange (CircArc.mkValLenD WideRange ⟨524288⟩ ⟨5 / 68719476736⟩)
        (CircArc.mkValLenD WideRange ⟨524288⟩ ⟨5 / 68719476736⟩).GetC2 = false) ∧
    ((CircArc.mkRawD UnsignedDegRange 524288 (5 / 68719476736)).GetC2
        = ⟨128 + 1 / 8589934592⟩ ∧
      CircArc.Contains UnsignedDegRange (CircArc.mkRawD UnsignedDegRange 524288 (5 / 68719476736))
        (CircArc.mkRawD UnsignedDegRange 524288 (5 / 68719476736)).GetC2 = false) := by
  rw [mkRawD_wide, mkRawD_deg, mkValLenD_wide]
  norm_num [CircArc.Contains, CircArc.GetC1, CircArc.GetC2, CircVal.Pdist, WideRange,
    UnsignedDegRange, Range.R, eps]

/-- C3: an arc whose length is `R` contains every circular value of its range, whatever its
start point. -/
theorem C3_full_circle_contains_point (T : Range) (a : CircArc) (p : CircVal)
    (ha : a.InRange T) (hp : p.InRange T) (hl : a.GetL = T.R) :
    CircArc.Contains T a p = true := by
  have := eps_pos
  have h := Pdist_lt T a.c1 p ha.1 hp
  have hl2 : a.l.l = T.R := hl
  simp only [CircArc.Contains, decide_eq_true_eq, hl2]
  linarith

/-- C3 (witness): in `[0, 360)` the full circle starting at 10 contains the point 5. -/
theorem C3_full_circle_contains_point_witness :
    CircArc.Contains UnsignedDegRange (CircArc.mkRaw UnsignedDegRange 10 360)
      (CircVal.ofRaw UnsignedDegRange 5) = true :=
  C3_full_circle_contains_point UnsignedDegRange (CircArc.mkRaw UnsignedDegRange 10 360)
    (CircVal.ofRaw UnsignedDegRange 5)
    (by norm_num [CircArc.InRange, CircVal.InRange, CircArcLen.InRange, CircArc.mkRaw,
      CircVal.ofRaw, CircVal.Wrap, Mod, Range.R, UnsignedDegRange, CircArcLen.ofRaw])
    (by norm_num [CircVal.InRange, CircVal.ofRaw, CircVal.Wrap, Mod, Range.R, UnsignedDegRange])
    (by norm_num [CircArc.GetL, CircArc.mkRaw, CircArcLen.ofRaw, Range.R, UnsignedDegRange])

/-! ## Arc containment and equality -/

/-- C4: a full-circle arc contains every arc, a full-circle arc included; an arc that is not
a full circle does not contain a full-circle arc; in `[-180, 180)`,
`CircArc(-170, 360).Contains(CircArc(-180, 360))` is true. -/
theorem C4_full_circle_containment :
    (∀ (T : Range) (a b : CircArc), a.GetL = T.R → CircArc.ContainsArc T a b = true) ∧
    (∀ (T : Range) (a b : CircArc), a.GetL ≠ T.R → b.GetL = T.R →
      CircArc.ContainsArc T a b = false) ∧
    CircArc.ContainsArc SignedDegRange (CircArc.mkRaw SignedDegRange (-170) 360)
      (CircArc.mkRaw SignedDegRange (-180) 360) = true := by
  refine ⟨?_, ?_, ?_⟩
  · intro T a b ha
    have ha2 : a.l.l = T.R := ha
    simp [CircArc.ContainsArc, ha2]
  · intro T a b ha hb
    have ha2 : ¬ a.l.l = T.R := ha
    have hb2 : b.l.l = T.R := hb
    simp [CircArc.ContainsArc, ha2, hb2]
  · norm_num [CircArc.ContainsArc, CircArc.mkRaw, CircArcLen.ofRaw, Range.R, SignedDegRange]

/-- C4 (witness): in `[0, 360)` the full circle starting at 10 contains the full circle
starting at 20, and `CircArc(10, 90)` does not contain it. -/
theorem C4_full_circle_containment_witness :
    CircArc.ContainsArc UnsignedDegRange (CircArc.mkRaw UnsignedDegRange 10 360)
        (CircArc.mkRaw UnsignedDegRange 20 360) = true ∧
      CircArc.ContainsArc UnsignedDegRange (CircArc.mkRaw UnsignedDegRange 10 90)
        (CircArc.mkRaw UnsignedDegRange 20 360) = false :=
  ⟨C4_full_circle_containment.1 UnsignedDegRange _ _
      (by norm_num [CircArc.GetL, CircArc.mkRaw, CircArcLen.ofRaw, Range.R, UnsignedDegRange]),
    C4_full_circle_containment.2.1 UnsignedDegRange _ _
      (by norm_num [CircArc.GetL, CircArc.mkRaw, CircArcLen.ofRaw, Range.R, UnsignedDegRange])
      (by norm_num [CircArc.GetL, CircArc.mkRaw, CircArcLen.ofRaw, Range.R, UnsignedDegRange])⟩

/-- C5 (counterexample): four pairs of arcs that contain each other and are not equal.  In
`[0, 360)`: `CircArc(0, 100)` and `CircArc(0, 100 + 5e-13)`, of lengths closer than
`1e-12`; `CircArc(0, 0)` and `CircArc(7.5e-13, 360 - 5e-13)`, the latter less than `1e-12`
short of the full circle.  In a range `[0, 2^-39)` of circumference below `2e-12`:
`CircArc(0, 2^-42)` and `CircArc(2^-40, 2^-42)`.  In `[0, 2^20)`: the arcs of
`CircArc(524288, 0)` and `CircArc(524288, 3 * 2^-36)`, where the double sum rounds the second
end point back onto the start point. -/
theorem C5_mutual_containment_not_equal :
    (CircArc.ContainsArc UnsignedDegRange (CircArc.mkRaw UnsignedDegRange 0 100)
        (CircArc.mkRaw UnsignedDegRange 0 (100 + eps / 2)) = true ∧
      CircArc.ContainsArc UnsignedDegRange (CircArc.mkRaw UnsignedDegRange 0 (100 + eps / 2))
        (CircArc.mkRaw UnsignedDegRange 0 100) = true ∧
      CircArc.eq UnsignedDegRange (CircArc.mkRaw UnsignedDegRange 0 100)
        (CircArc.mkRaw UnsignedDegRange 0 (100 + eps / 2)) = false) ∧
    (CircArc.ContainsArc UnsignedDegRange (CircArc.mkRaw UnsignedDegRange 0 0)
        (CircArc.mkRaw UnsignedDegRange (3 * eps / 4) (360 - eps / 2)) = true ∧
      CircArc.ContainsArc UnsignedDegRange
        (CircArc.mkRaw UnsignedDegRange (3 * eps / 4) (360 - eps / 2))
        (CircArc.mkRaw UnsignedDegRange 0 0) = true ∧
      CircArc.eq UnsignedDegRange (CircArc.mkRaw UnsignedDegRange 0 0)
        (CircArc.mkRaw UnsignedDegRange (3 * eps / 4) (360 - eps / 2)) = false) ∧
    (CircArc.ContainsArc ⟨0, 1 / 549755813888, 0⟩
        (CircArc.mkRaw ⟨0, 1 / 549755813888, 0⟩ 0 (1 / 4398046511104))
        (CircArc.mkRaw ⟨0, 1 / 549755813888, 0⟩ (1 / 1099511627776) (1 / 4398046511104))
          = true ∧
      CircArc.ContainsArc ⟨0, 1 / 549755813888, 0⟩
        (CircArc.mkRaw ⟨0, 1 / 549755813888, 0⟩ (1 / 1099511627776) (1 / 4398046511104))
        (CircArc.mkRaw ⟨0, 1 / 549755813888, 0⟩ 0 (1 / 4398046511104)) = true ∧
      CircArc.eq ⟨0, 1 / 549755813888, 0⟩
        (CircArc.mkRaw ⟨0, 1 / 549755813888, 0⟩ 0 (1 / 4398046511104))
        (CircArc.mkRaw ⟨0, 1 / 549755813888, 0⟩ (1 / 1099511627776) (1 / 4398046511104))
          = false) ∧
    (CircArc.ContainsArc WideRange (CircArc.mkRawD WideRange 524288 0)
        (CircArc.mkRawD WideRange 524288 (3 / 68719476736)) = true ∧
      CircArc.ContainsArc WideRange (CircArc.mkRawD WideRange 524288 (3 / 68719476736))
        (CircArc.mkRawD WideRange 524288 0) = true ∧
      CircArc.eq WideRange (CircArc.mkRawD WideRange 524288 0)
        (CircArc.mkRawD WideRange 524288 (3 / 68719476736)) = false) := by
  refine ⟨?_, ?_, ?_, ?_⟩
  · norm_num [CircArc.ContainsArc, CircArc.eq, CircArc.mkRaw, CircVal.ofRaw, CircVal.Wrap, Mod,
      Range.R, UnsignedDegRange, CircVal.Pdist, CircArcLen.ofRaw, eps]
  · norm_num [CircArc.ContainsArc, CircArc.eq, CircArc.mkRaw, CircVal.ofRaw, CircVal.Wrap, Mod,
      Range.R, UnsignedDegRange, CircVal.Pdist, CircArcLen.ofRaw, eps]
  · norm_num [CircArc.ContainsArc, CircArc.eq, CircArc.mkRaw, CircVal.ofRaw, CircVal.Wrap, Mod,
      Range.R, CircVal.Pdist, CircArcLen.ofRaw, eps]
  · rw [mkRawD_wide_zero, mkRawD_wide_short]
    norm_num [CircArc.ContainsArc, CircArc.eq, CircVal.Pdist, WideRange, Range.R, eps]

/-- C5 (as amended): let `η ≥ 0` bound the rounding error stored in the end points and
`ρ ≥ 0` the rounding error of the results of `Pdist`.  For two arcs of a range with
`R ≥ 2 * (1e-12 + η + ρ)`, each either a full circle or with `|Pdist(c1, c2) - l| ≤ η` and
at least `1e-12 + η + 2ρ` short of the full circle: if each contains the other, then both
are full circles or they have the same start point and lengths less than `1e-12 + η + ρ`
apart; hence `a == b` whenever the lengths are equal or differ by at least `1e-12 + η + ρ`.
In exact arithmetic `η = ρ = 0`. -/
theorem C5_mutual_containment_eq (T : Range) (pd : CircVal → CircVal → ℚ) (η ρ : ℚ)
    (a b : CircArc)
    (hpd : ∀ x y : CircVal, x.InRange T → y.InRange T → |pd x y - CircVal.Pdist T x y| ≤ ρ)
    (hR : 2 * (eps + η + ρ) ≤ T.R) (ha : a.InRange T) (hb : b.InRange T)
    (fa : a.GetL = T.R ∨ (a.endDev T ≤ η ∧ a.GetL ≤ T.R - eps - η - 2 * ρ))
    (fb : b.GetL = T.R ∨ (b.endDev T ≤ η ∧ b.GetL ≤ T.R - eps - η - 2 * ρ))
    (hab : CircArc.ContainsArcP pd T a b = true)
    (hba : CircArc.ContainsArcP pd T b a = true) :
    ((a.GetL = T.R ∧ b.GetL = T.R) ∨
        (a.GetC1 = b.GetC1 ∧ |a.GetL - b.GetL| < eps + η + ρ)) ∧
      ((a.GetL = b.GetL ∨ eps + η + ρ ≤ |a.GetL - b.GetL|) → CircArc.eq T a b = true) := by
  show ((a.l.l = T.R ∧ b.l.l = T.R) ∨ (a.c1 = b.c1 ∧ |a.l.l - b.l.l| < eps + η + ρ)) ∧
    ((a.l.l = b.l.l ∨ eps + η + ρ ≤ |a.l.l - b.l.l|) → CircArc.eq T a b = true)
  by_cases ra : a.l.l = T.R
  · by_cases rb : b.l.l = T.R
    · exact ⟨Or.inl ⟨ra, rb⟩, fun _ => by simp [CircArc.eq, ra, rb]⟩
    · simp [CircArc.ContainsArcP, ra, rb] at hba
  · by_cases rb : b.l.l = T.R
    · simp [CircArc.ContainsArcP, ra, rb] at hab
    · obtain ⟨da, la⟩ := fa.resolve_left ra
      obtain ⟨db, lb⟩ := fb.resolve_left rb
      have la2 : a.l.l ≤ T.R - eps - η - 2 * ρ := la
      have lb2 : b.l.l ≤ T.R - eps - η - 2 * ρ := lb
      obtain ⟨a1, a2⟩ := endDev_bounds T a
      obtain ⟨b1, b2⟩ := endDev_bounds T b
      obtain ⟨-, ⟨-, p2, p3⟩ | p4⟩ := ContainsArcP_walk T pd ρ a b hpd ha.1 hb ra hab
      · obtain ⟨-, ⟨-, q2, q3⟩ | q4⟩ := ContainsArcP_walk T pd ρ b a hpd hb.1 ha rb hba
        · have n1 := Pdist_nonneg T a.c1 b.c1 ha.1 hb.1
          have n2 := Pdist_nonneg T b.c1 a.c1 hb.1 ha.1
          have hc : a.c1 = b.c1 := by
            by_contra hne
            have hpos : 0 < CircVal.Pdist T b.c1 a.c1 := by
              rcases n2.lt_or_eq with h | h
              · exact h
              · exact absurd (Pdist_eq_zero T b.c1 a.c1 hb.1 ha.1 h.symm).symm hne
            have hcm := Pdist_compl T a.c1 b.c1 hpos
            linarith
          have z1 : CircVal.Pdist T a.c1 b.c1 = 0 := by rw [hc]; exact Pdist_self T b.c1
          have z2 : CircVal.Pdist T b.c1 a.c1 = 0 := by rw [hc]; exact Pdist_self T b.c1
          have hlt : |a.l.l - b.l.l| < eps + η + ρ := by
            rw [abs_lt]; constructor <;> linarith
          refine ⟨Or.inr ⟨hc, hlt⟩, fun hl => ?_⟩
          have hleq : a.l.l = b.l.l := by
            rcases hl with h | h
            · exact h
            · exact absurd hlt (not_lt.mpr h)
          have hl2 : a.l = b.l := by
            cases hx : a.l with
            | mk x =>
              cases hy : b.l with
              | mk y => rw [hx, hy] at hleq; simpa using hleq
          simp [CircArc.eq, ra, hc, hl2]
        · linarith
      · linarith

/-- C5 (witness): in `[0, 360)`, with `Pdist` exact, the arc `CircArc(100, 100)` and the arc
from 100 to 200, both stored without rounding error, contain each other, and they are
equal. -/
theorem C5_mutual_containment_eq_witness :
    CircArc.ContainsArc UnsignedDegRange (CircArc.mkRaw UnsignedDegRange 100 100)
        (CircArc.mkValVal UnsignedDegRange ⟨100⟩ ⟨200⟩) = true ∧
      CircArc.ContainsArc UnsignedDegRange (CircArc.mkValVal UnsignedDegRange ⟨100⟩ ⟨200⟩)
        (CircArc.mkRaw UnsignedDegRange 100 100) = true ∧
      CircArc.eq UnsignedDegRange (CircArc.mkRaw UnsignedDegRange 100 100)
        (CircArc.mkValVal UnsignedDegRange ⟨100⟩ ⟨200⟩) = true :=
  have hab : CircArc.ContainsArc UnsignedDegRange (CircArc.mkRaw UnsignedDegRange 100 100)
      (CircArc.mkValVal UnsignedDegRange ⟨100⟩ ⟨200⟩) = true := by
    norm_num [CircArc.ContainsArc, CircArc.mkRaw, CircArc.mkValVal, CircVal.ofRaw,
      CircVal.Wrap, Mod, Range.R, UnsignedDegRange, CircVal.Pdist, CircArcLen.ofRaw, eps]
  have hba : CircArc.ContainsArc UnsignedDegRange (CircArc.mkValVal UnsignedDegRange ⟨100⟩ ⟨200⟩)
      (CircArc.mkRaw UnsignedDegRange 100 100) = true := by
    norm_num [CircArc.ContainsArc, CircArc.mkRaw, CircArc.mkValVal, CircVal.ofRaw,
      CircVal.Wrap, Mod, Range.R, UnsignedDegRange, CircVal.Pdist, CircArcLen.ofRaw, eps]
  ⟨hab, hba,
    (C5_mutual_containment_eq UnsignedDegRange (CircVal.Pdist UnsignedDegRange) 0 0
      (CircArc.mkRaw UnsignedDegRange 100 100) (CircArc.mkValVal UnsignedDegRange ⟨100⟩ ⟨200⟩)
      (fun x y _ _ => by simp)
      (by norm_num [Range.R, UnsignedDegRange, eps])
      (by norm_num [CircArc.InRange, CircVal.InRange, CircArcLen.InRange, CircArc.mkRaw,
        CircVal.ofRaw, CircVal.Wrap, Mod, Range.R, UnsignedDegRange, CircArcLen.ofRaw])
      (by norm_num [CircArc.InRange, CircVal.InRange, CircArcLen.InRange, CircArc.mkValVal,
        Range.R, UnsignedDegRange, CircArcLen.ofRaw, CircVal.Pdist])
      (Or.inr (by norm_num [CircArc.GetL, CircArc.endDev, CircArc.mkRaw, CircArcLen.ofRaw,
        CircVal.ofRaw, CircVal.Wrap, Mod, CircVal.Pdist, Range.R, UnsignedDegRange, eps]))
      (Or.inr (by norm_num [CircArc.GetL, CircArc.endDev, CircArc.mkValVal, CircArcLen.ofRaw,
        CircVal.Pdist, Range.R, UnsignedDegRange, eps]))
      hab hba).2
      (Or.inl (by norm_num [CircArc.GetL, CircArc.mkRaw, CircArc.mkValVal, CircArcLen.ofRaw,
        CircVal.Pdist, Range.R, UnsignedDegRange]))⟩

/-- With the sum of the constructor taken exactly, two equal arcs built by constructors of
their own range contain each other, and every such arc contains itself. -/
theorem exact_eq_mutual_containment :
    (∀ (T : Range) (a b : CircArc), 0 < T.R → CircArc.Built T a → CircArc.Built T b →
      CircArc.eq T a b = true →
      CircArc.ContainsArc T a b = true ∧ CircArc.ContainsArc T b a = true) ∧
    (∀ (T : Range) (a : CircArc), 0 < T.R → CircArc.Built T a →
      CircArc.ContainsArc T a a = true) := by
  constructor
  · intro T a b hR ha hb h
    have ia := Built_Inv T a hR ha
    have ib := Built_Inv T b hR hb
    exact ⟨ContainsArc_of_eq T a b hR ib h,
      ContainsArc_of_eq T b a hR ia (eq_symm_true T a b h)⟩
  · intro T a hR ha
    have ia := Built_Inv T a hR ha
    exact ContainsArc_of_eq T a a hR ia (eq_refl_true T a)

/-- C6 (failing input): in `[0, 2^20)` the arc `a` of the call `CircArc(524288, 5 * 2^-36)`
satisfies `a == a`, and `a.Contains(a)` is false: the stored end point `524288 + 2^-33` lies
`3 * 2^-36` beyond the length, more than the tolerance.  The same holds in `[0, 360)`, where
the call stores the start point 128 and the end point `128 + 2^-33`. -/
theorem C6_equal_arc_not_contained :
    (CircArc.eq WideRange (CircArc.mkRawD WideRange 524288 (5 / 68719476736))
        (CircArc.mkRawD WideRange 524288 (5 / 68719476736)) = true ∧
      CircArc.ContainsArc WideRange (CircArc.mkRawD WideRange 524288 (5 / 68719476736))
        (CircArc.mkRawD WideRange 524288 (5 / 68719476736)) = false) ∧
    (CircArc.eq UnsignedDegRange (CircArc.mkRawD UnsignedDegRange 524288 (5 / 68719476736))
        (CircArc.mkRawD UnsignedDegRange 524288 (5 / 68719476736)) = true ∧
      CircArc.ContainsArc UnsignedDegRange
        (CircArc.mkRawD UnsignedDegRange 524288 (5 / 68719476736))
        (CircArc.mkRawD UnsignedDegRange 524288 (5 / 68719476736)) = false) := by
  rw [mkRawD_wide, mkRawD_deg]
  norm_num [CircArc.eq, CircArc.ContainsArc, CircVal.Pdist, WideRange, UnsignedDegRange,
    Range.R, eps]

/-- C7: `a == b` is true when both lengths equal `R`, whatever the start points; otherwise
it is true exactly when the start points are equal and the lengths are equal; and `a != b`
is the negation of `a == b`. -/
theorem C7_arc_equality :
    (∀ (T : Range) (a b : CircArc), a.GetL = T.R → b.GetL = T.R → CircArc.eq T a b = true) ∧
    (∀ (T : Range) (a b : CircArc), ¬ (a.GetL = T.R ∧ b.GetL = T.R) →
      (CircArc.eq T a b = true ↔ a.GetC1 = b.GetC1 ∧ a.GetL = b.GetL)) ∧
    (∀ (T : Range) (a b : CircArc), CircArc.ne T a b = !(CircArc.eq T a b)) := by
  refine ⟨?_, ?_, ?_⟩
  · intro T a b ha hb
    have ha2 : a.l.l = T.R := ha
    have hb2 : b.l.l = T.R := hb
    simp [CircArc.eq, ha2, hb2]
  · intro T a b hf
    have hf2 : ¬ (a.l.l = T.R ∧ b.l.l = T.R) := hf
    have hl : a.l = b.l ↔ a.l.l = b.l.l := by
      cases a.l; cases b.l; simp
    simp only [CircArc.eq, if_neg hf2, Bool.and_eq_true, decide_eq_true_eq, CircArc.GetC1,
      CircArc.GetL, hl]
  · intro T a b
    rfl

/-- C7 (witness): in `[-180, 180)` the full circles starting at -170 and at -180 are equal,
and `CircArc(10, 20) == CircArc(10, 30)` is decided by start points and lengths. -/
theorem C7_arc_equality_witness :
    CircArc.eq SignedDegRange (CircArc.mkRaw SignedDegRange (-170) 360)
        (CircArc.mkRaw SignedDegRange (-180) 360) = true ∧
      (CircArc.eq SignedDegRange (CircArc.mkRaw SignedDegRange 10 20)
          (CircArc.mkRaw SignedDegRange 10 30) = true ↔
        (CircArc.mkRaw SignedDegRange 10 20).GetC1 = (CircArc.mkRaw SignedDegRange 10 30).GetC1 ∧
          (CircArc.mkRaw SignedDegRange 10 20).GetL = (CircArc.mkRaw SignedDegRange 10 30).GetL) :=
  ⟨C7_arc_equality.1 SignedDegRange _ _
      (by norm_num [CircArc.GetL, CircArc.mkRaw, CircArcLen.ofRaw, Range.R, SignedDegRange])
      (by norm_num [CircArc.GetL, CircArc.mkRaw, CircArcLen.ofRaw, Range.R, SignedDegRange]),
    C7_arc_equality.2.1 SignedDegRange _ _
      (by norm_num [CircArc.GetL, CircArc.mkRaw, CircArcLen.ofRaw, Range.R, SignedDegRange])⟩

/-! ## Intersection -/

/-- C8: two arcs of one range intersect if and only if some circular value of the range is
contained in both. -/
theorem C8_Intersect_iff_common_point (T : Range) (a b : CircArc)
    (ha : a.InRange T) (hb : b.InRange T) :
    CircArc.Intersect T a b = true ↔
      ∃ p : CircVal, p.InRange T ∧ CircArc.Contains T a p = true ∧
        CircArc.Contains T b p = true := by
  constructor
  · intro h
    simp only [CircArc.Intersect, Bool.or_eq_true] at h
    rcases h with h | h
    · exact ⟨b.c1, hb.1, h, Contains_start T b hb.2.2.1⟩
    · exact ⟨a.c1, ha.1, Contains_start T a ha.2.2.1, h⟩
  · rintro ⟨p, hp, hap, hbp⟩
    simp only [CircArc.Contains, decide_eq_true_eq] at hap hbp
    simp only [CircArc.Intersect, Bool.or_eq_true, CircArc.Contains, decide_eq_true_eq]
    rcases Pdist_first T a.c1 b.c1 p ha.1 hb.1 hp with h | h
    · left; linarith
    · right; linarith

/-- C8 (witness): in `[0, 360)`, `CircArc(0, 100)` and `CircArc(100, 100)` intersect exactly
when they have a common point. -/
theorem C8_Intersect_iff_common_point_witness :
    CircArc.Intersect UnsignedDegRange (CircArc.mkRaw UnsignedDegRange 0 100)
        (CircArc.mkRaw UnsignedDegRange 100 100) = true ↔
      ∃ p : CircVal, p.InRange UnsignedDegRange ∧
        CircArc.Contains UnsignedDegRange (CircArc.mkRaw UnsignedDegRange 0 100) p = true ∧
        CircArc.Contains UnsignedDegRange (CircArc.mkRaw UnsignedDegRange 100 100) p = true :=
  C8_Intersect_iff_common_point UnsignedDegRange (CircArc.mkRaw UnsignedDegRange 0 100)
    (CircArc.mkRaw UnsignedDegRange 100 100)
    (by norm_num [CircArc.InRange, CircVal.InRange, CircArcLen.InRange, CircArc.mkRaw,
      CircVal.ofRaw, CircVal.Wrap, Mod, Range.R, UnsignedDegRange, CircArcLen.ofRaw])
    (by norm_num [CircArc.InRange, CircVal.InRange, CircArcLen.InRange, CircArc.mkRaw,
      CircVal.ofRaw, CircVal.Wrap, Mod, Range.R, UnsignedDegRange, CircArcLen.ofRaw])

/-- C9: `Intersect` is symmetric, `a.Intersect(b) = b.Intersect(a)`. -/
theorem C9_Intersect_symm (T : Range) (a b : CircArc) :
    CircArc.Intersect T a b = CircArc.Intersect T b a := by
  simp only [CircArc.Intersect, Bool.or_comm]

/-- With the sum of the constructor taken exactly: when the start point of `b` is the end
point of an arc `a` built by a constructor of its own range, `a.Intersect(b)` and
`b.Intersect(a)` are true; in `[0, 360)`,
`CircArc(0, 100).Intersect(CircArc(100, 100))` and
`CircArc(100, 100).Intersect(CircArc(200, 100))` are true. -/
theorem exact_touching_arcs_intersect :
    (∀ (T : Range) (a b : CircArc), 0 < T.R → CircArc.Built T a → b.GetC1 = a.GetC2 →
      CircArc.Intersect T a b = true ∧ CircArc.Intersect T b a = true) ∧
    CircArc.Intersect UnsignedDegRange (CircArc.mkRaw UnsignedDegRange 0 100)
      (CircArc.mkRaw UnsignedDegRange 100 100) = true ∧
    CircArc.Intersect UnsignedDegRange (CircArc.mkRaw UnsignedDegRange 100 100)
      (CircArc.mkRaw UnsignedDegRange 200 100) = true := by
  refine ⟨?_, ?_, ?_⟩
  · intro T a b hR ha hb
    have hb2 : b.c1 = a.c2 := hb
    have h := Contains_end T a hR (Built_Inv T a hR ha)
    simp only [CircArc.Intersect, hb2, h, Bool.true_or, Bool.or_true, and_self]
  all_goals
    norm_num [CircArc.Intersect, CircArc.Contains, CircArc.mkRaw, CircVal.ofRaw, CircVal.Wrap,
      Mod, Range.R, UnsignedDegRange, CircVal.Pdist, CircArcLen.ofRaw, eps]

/-- C10 (failing input): in `[0, 2^20)` let `a` be the arc of `CircArc(524288, 5 * 2^-36)` and
`b` the arc of `CircArc(524288 + 2^-33, 10)`, which starts at the end point of `a`; then
`a.Intersect(b)` and `b.Intersect(a)` are both false.  The same holds in `[0, 360)` for the
arc `a` of `CircArc(524288, 5 * 2^-36)`, which ends at `128 + 2^-33`, and the arc `b` of
`CircArc(128 + 2^-33, 10)`. -/
theorem C10_touching_arcs_disjoint :
    ((CircArc.mkRawD WideRange (524288 + 1 / 8589934592) 10).GetC1
        = (CircArc.mkRawD WideRange 524288 (5 / 68719476736)).GetC2 ∧
      CircArc.Intersect WideRange (CircArc.mkRawD WideRange 524288 (5 / 68719476736))
        (CircArc.mkRawD WideRange (524288 + 1 / 8589934592) 10) = false ∧
      CircArc.Intersect WideRange (CircArc.mkRawD WideRange (524288 + 1 / 8589934592) 10)
        (CircArc.mkRawD WideRange 524288 (5 / 68719476736)) = false) ∧
    ((CircArc.mkRawD UnsignedDegRange (128 + 1 / 8589934592) 10).GetC1
        = (CircArc.mkRawD UnsignedDegRange 524288 (5 / 68719476736)).GetC2 ∧
      CircArc.Intersect UnsignedDegRange
        (CircArc.mkRawD UnsignedDegRange 524288 (5 / 68719476736))
        (CircArc.mkRawD UnsignedDegRange (128 + 1 / 8589934592) 10) = false ∧
      CircArc.Intersect UnsignedDegRange
        (CircArc.mkRawD UnsignedDegRange (128 + 1 / 8589934592) 10)
        (CircArc.mkRawD UnsignedDegRange 524288 (5 / 68719476736)) = false) := by
  rw [mkRawD_wide, mkRawD_wide_next, mkRawD_deg, mkRawD_deg_next]
  norm_num [CircArc.Intersect, CircArc.Contains, CircArc.GetC1, CircArc.GetC2, CircVal.Pdist,
    WideRange, UnsignedDegRange, Range.R, eps]

/-! ## Construction -/

/-- C11 (counterexample): in `[0, 360)` the zero-length arc `CircArc(100, 0)` contains the
point `100 + 5e-13`, which is not its start point. -/
theorem C11_zero_arc_contains_other_point :
    (CircArc.mkRaw UnsignedDegRange 100 0).GetL = 0 ∧
      CircArc.Contains UnsignedDegRange (CircArc.mkRaw UnsignedDegRange 100 0)
        (CircVal.ofRaw UnsignedDegRange (100 + eps / 2)) = true ∧
      CircVal.ofRaw UnsignedDegRange (100 + eps / 2)
        ≠ (CircArc.mkRaw UnsignedDegRange 100 0).GetC1 := by
  norm_num [CircArc.Contains, CircArc.mkRaw, CircVal.ofRaw, CircVal.Wrap, Mod, Range.R,
    UnsignedDegRange, CircVal.Pdist, CircArcLen.ofRaw, eps, CircArc.GetL, CircArc.GetC1]

/-- C11 (as amended): a zero-length arc built by a constructor of its own range has
`GetC2() = GetC1()` and contains a circular value `p` exactly when `Pdist(GetC1(), p)` is
below `1e-12`; of the values that are equal to the start point or at least `1e-12` apart
from it, it contains the start point only. -/
theorem C11_zero_arc_contains (T : Range) (a : CircArc) (p : CircVal) (hR : 0 < T.R)
    (ha : CircArc.Built T a) (hl : a.GetL = 0) :
    a.GetC2 = a.GetC1 ∧
      (CircArc.Contains T a p = true ↔ CircVal.Pdist T a.GetC1 p < eps) ∧
      (CircVal.Apart T a.GetC1 p → (CircArc.Contains T a p = true ↔ p = a.GetC1)) := by
  have hi := Built_Inv T a hR ha
  have hl0 : a.l.l = 0 := hl
  have hc : CircArc.Contains T a p = true ↔ CircVal.Pdist T a.c1 p < eps := by
    simp only [CircArc.Contains, hl0, decide_eq_true_eq]
    constructor <;> intro h <;> linarith
  have hne : a.l.l ≠ T.R := by rw [hl0]; exact hR.ne
  have hd := Inv_Pdist T a hR hi hne
  rw [hl0] at hd
  refine ⟨(Pdist_eq_zero T a.c1 a.c2 hi.1 (Inv_c2 T a hR hi) hd).symm, hc, ?_⟩
  intro hap
  rw [hc]
  constructor
  · intro h
    rcases hap with h1 | ⟨h1, -⟩
    · exact h1.symm
    · exact absurd h (not_lt.mpr h1)
  · intro h
    have h2 : p = a.c1 := h
    rw [h2, Pdist_self]; exact eps_pos

/-- C11 (witness): in `[0, 360)` the zero-length arc `CircArc(100, 0)` does not contain the
point 101. -/
theorem C11_zero_arc_contains_witness :
    (CircArc.mkRaw UnsignedDegRange 100 0).GetC2 = (CircArc.mkRaw UnsignedDegRange 100 0).GetC1 ∧
      (CircArc.Contains UnsignedDegRange (CircArc.mkRaw UnsignedDegRange 100 0) ⟨101⟩ = true ↔
        CircVal.Pdist UnsignedDegRange (CircArc.mkRaw UnsignedDegRange 100 0).GetC1 ⟨101⟩ < eps) ∧
      (CircVal.Apart UnsignedDegRange (CircArc.mkRaw UnsignedDegRange 100 0).GetC1 ⟨101⟩ →
        (CircArc.Contains UnsignedDegRange (CircArc.mkRaw UnsignedDegRange 100 0) ⟨101⟩ = true ↔
          (⟨101⟩ : CircVal) = (CircArc.mkRaw UnsignedDegRange 100 0).GetC1)) :=
  C11_zero_arc_contains UnsignedDegRange (CircArc.mkRaw UnsignedDegRange 100 0) ⟨101⟩
    (by norm_num [Range.R, UnsignedDegRange])
    (CircArc.Built.raw 100 0)
    (by norm_num [CircArc.GetL, CircArc.mkRaw, CircArcLen.ofRaw, Range.R, UnsignedDegRange])

/-- C13: the arc built from a start point `s` and an end point `e` of its range has
`GetC1() = s`, `GetC2() = e` and `GetL() = Pdist(s, e)`; the length is 0 when `s = e` and
is below `R` in every case, so the arc is never a full circle. -/
theorem C13_start_end_construction (T : Range) (s e : CircVal) (hs : s.InRange T)
    (he : e.InRange T) :
    (CircArc.mkValVal T s e).GetC1 = s ∧ (CircArc.mkValVal T s e).GetC2 = e ∧
      (CircArc.mkValVal T s e).GetL = CircVal.Pdist T s e ∧
      (s = e → (CircArc.mkValVal T s e).GetL = 0) ∧
      (CircArc.mkValVal T s e).GetL < T.R ∧ (CircArc.mkValVal T s e).GetL ≠ T.R := by
  have hp0 := Pdist_nonneg T s e hs he
  have hp1 := Pdist_lt T s e hs he
  have hcl := clamp_of_mem T _ hp0 hp1.le
  have hl : (CircArc.mkValVal T s e).GetL = CircVal.Pdist T s e := by
    show (CircArcLen.ofRaw T (CircVal.Pdist T s e)).l = CircVal.Pdist T s e
    rw [hcl]
  refine ⟨rfl, rfl, hl, ?_, ?_, ?_⟩
  · intro h
    rw [hl, h, Pdist_self]
  · rw [hl]; exact hp1
  · rw [hl]; exact hp1.ne

/-- C13 (witness): in `[0, 360)` the arc from 300 to 20 has the length 80, and the arc from 20
to 20 has the length 0. -/
theorem C13_start_end_construction_witness :
    (CircArc.mkValVal UnsignedDegRange ⟨300⟩ ⟨20⟩).GetL = 80 ∧
      (CircArc.mkValVal UnsignedDegRange ⟨20⟩ ⟨20⟩).GetL = 0 :=
  ⟨(C13_start_end_construction UnsignedDegRange ⟨300⟩ ⟨20⟩
      (by norm_num [CircVal.InRange, UnsignedDegRange])
      (by norm_num [CircVal.InRange, UnsignedDegRange])).2.2.1.trans
      (by norm_num [CircVal.Pdist, Range.R, UnsignedDegRange]),
    (C13_start_end_construction UnsignedDegRange ⟨20⟩ ⟨20⟩
      (by norm_num [CircVal.InRange, UnsignedDegRange])
      (by norm_num [CircVal.InRange, UnsignedDegRange])).2.2.2.1 rfl⟩

/-! ## Arc lengths -/

/-- C14: with `R > 0`, constructing or assigning a `CircArcLen` from a raw value `r` stores
`max(0, min(r, R))`, which lies in `[0, R]`, is `r` for `0 ≤ r ≤ R`, 0 for `r < 0` and `R`
for `r > R`. -/
theorem C14_arc_length_clamp (T : Range) (r : ℚ) (x : CircArcLen) (hR : 0 < T.R) :
    (CircArcLen.ofRaw T r).l = max 0 (min r T.R) ∧
      CircArcLen.assign T x r = CircArcLen.ofRaw T r ∧
      (CircArcLen.ofRaw T r).InRange T ∧
      (0 ≤ r → r ≤ T.R → (CircArcLen.ofRaw T r).l = r) ∧
      (r < 0 → (CircArcLen.ofRaw T r).l = 0) ∧
      (T.R < r → (CircArcLen.ofRaw T r).l = T.R) := by
  refine ⟨?_, rfl, clamp_inRange T r hR, ?_, ?_, ?_⟩
  · show min (max 0 r) T.R = max 0 (min r T.R)
    rw [max_min_distrib_left, max_eq_right hR.le]
  · intro h0 h1
    rw [clamp_of_mem T r h0 h1]
  · intro h
    show min (max 0 r) T.R = 0
    rw [max_eq_left h.le, min_eq_left hR.le]
  · intro h
    show min (max 0 r) T.R = T.R
    rw [max_eq_right (hR.le.trans h.le), min_eq_right h.le]

/-- C14 (witness): in `[0, 360)` the raw lengths 400, -5 and 100 are stored as 360, 0 and
100. -/
theorem C14_arc_length_clamp_witness :
    (CircArcLen.ofRaw UnsignedDegRange 400).l = 360 ∧
      (CircArcLen.ofRaw UnsignedDegRange (-5)).l = 0 ∧
      (CircArcLen.ofRaw UnsignedDegRange 100).l = 100 :=
  ⟨((C14_arc_length_clamp UnsignedDegRange 400 ⟨0⟩
      (by norm_num [Range.R, UnsignedDegRange])).2.2.2.2.2
      (by norm_num [Range.R, UnsignedDegRange])).trans
      (by norm_num [Range.R, UnsignedDegRange]),
    (C14_arc_length_clamp UnsignedDegRange (-5) ⟨0⟩
      (by norm_num [Range.R, UnsignedDegRange])).2.2.2.2.1 (by norm_num),
    (C14_arc_length_clamp UnsignedDegRange 100 ⟨0⟩
      (by norm_num [Range.R, UnsignedDegRange])).2.2.2.1 (by norm_num)
      (by norm_num [Range.R, UnsignedDegRange])⟩

/-- With the sum of the constructor taken exactly: for an arc built by a constructor of its
own range, the end point equals the start point exactly when the length is 0 or `R`; the start point and the end point lie in
`[L, H)` and the length lies in `[0, R]`. -/
theorem exact_end_equals_start_iff (T : Range) (a : CircArc) (hR : 0 < T.R)
    (ha : CircArc.Built T a) :
    (a.GetC2 = a.GetC1 ↔ a.GetL = 0 ∨ a.GetL = T.R) ∧
      a.GetC1.InRange T ∧ a.GetC2.InRange T ∧ 0 ≤ a.GetL ∧ a.GetL ≤ T.R := by
  have hi := Built_Inv T a hR ha
  have h2 := Inv_c2 T a hR hi
  refine ⟨?_, hi.1, h2, hi.2.1.1, hi.2.1.2⟩
  show a.c2 = a.c1 ↔ a.l.l = 0 ∨ a.l.l = T.R
  constructor
  · intro h
    by_cases hf : a.l.l = T.R
    · exact Or.inr hf
    · left
      have hd := Inv_Pdist T a hR hi hf
      rw [h, Pdist_self] at hd
      exact hd.symm
  · rintro (h | h)
    · have hf : a.l.l ≠ T.R := by rw [h]; exact hR.ne
      have hd := Inv_Pdist T a hR hi hf
      rw [h] at hd
      exact (Pdist_eq_zero T a.c1 a.c2 hi.1 h2 hd).symm
    · exact Inv_full T a hR hi h

/-- C18 (failing input): in `[0, 360)` the call `CircArc(1 + 2^-52, 360)` stores the length
`R` and the end point 1, which is not the start point `1 + 2^-52`; and the call
`CircArc(100, 2^-50)` stores the end point 100, equal to the start point, with a length
that is neither 0 nor `R`. -/
theorem C18_end_point_rounding :
    ((CircArc.mkRawD UnsignedDegRange (1 + 1 / 4503599627370496) 360).GetL = UnsignedDegRange.R ∧
      (CircArc.mkRawD UnsignedDegRange (1 + 1 / 4503599627370496) 360).GetC2
        ≠ (CircArc.mkRawD UnsignedDegRange (1 + 1 / 4503599627370496) 360).GetC1) ∧
    ((CircArc.mkRawD UnsignedDegRange 100 (1 / 1125899906842624)).GetC2
        = (CircArc.mkRawD UnsignedDegRange 100 (1 / 1125899906842624)).GetC1 ∧
      (CircArc.mkRawD UnsignedDegRange 100 (1 / 1125899906842624)).GetL ≠ 0 ∧
      (CircArc.mkRawD UnsignedDegRange 100 (1 / 1125899906842624)).GetL ≠ UnsignedDegRange.R) := by
  have h1 : rd64 (1 + 1 / 4503599627370496 + 360) = 361 := by
    rw [rd64_binade _ 8 (by norm_num) (by norm_num [abs_of_pos]) (by norm_num [abs_of_pos])]
    norm_num [roundEven]
  have h2 : rd64 (100 + 1 / 1125899906842624) = 100 := by
    rw [rd64_binade _ 6 (by norm_num) (by norm_num [abs_of_pos]) (by norm_num [abs_of_pos])]
    norm_num [roundEven]
  have l1 : CircArcLen.ofRaw UnsignedDegRange 360 = ⟨360⟩ := by
    norm_num [CircArcLen.ofRaw, UnsignedDegRange, Range.R]
  have l2 : CircArcLen.ofRaw UnsignedDegRange (1 / 1125899906842624)
      = ⟨1 / 1125899906842624⟩ := by
    norm_num [CircArcLen.ofRaw, UnsignedDegRange, Range.R]
  unfold CircArc.mkRawD
  rw [l1, l2, h1, h2]
  norm_num [CircArc.GetL, CircArc.GetC1, CircArc.GetC2, CircVal.ofRaw, CircVal.Wrap, Mod,
    UnsignedDegRange, Range.R]

/-- C19 (counterexample): in `[0, 360)` the zero-length arc `CircArc(0, 0)` contains the arc
`CircArc(7.5e-13, 360 - 5e-13)`, whose length exceeds `0 + 1e-12`; and in `[0, 2^20)` the
zero-length arc of `CircArc(524288, 0)` contains the arc of `CircArc(524288, 3 * 2^-36)`,
whose end point the double sum rounds back onto its start point and whose length exceeds
`0 + 1e-12`. -/
theorem C19_short_arc_contains_longer :
    (CircArc.ContainsArc UnsignedDegRange (CircArc.mkRaw UnsignedDegRange 0 0)
        (CircArc.mkRaw UnsignedDegRange (3 * eps / 4) (360 - eps / 2)) = true ∧
      ¬ ((CircArc.mkRaw UnsignedDegRange (3 * eps / 4) (360 - eps / 2)).GetL
        ≤ (CircArc.mkRaw UnsignedDegRange 0 0).GetL + eps)) ∧
    (CircArc.ContainsArc WideRange (CircArc.mkRawD WideRange 524288 0)
        (CircArc.mkRawD WideRange 524288 (3 / 68719476736)) = true ∧
      ¬ ((CircArc.mkRawD WideRange 524288 (3 / 68719476736)).GetL
        ≤ (CircArc.mkRawD WideRange 524288 0).GetL + eps)) := by
  constructor
  · norm_num [CircArc.ContainsArc, CircArc.mkRaw, CircVal.ofRaw, CircVal.Wrap, Mod, Range.R,
      UnsignedDegRange, CircVal.Pdist, CircArcLen.ofRaw, eps, CircArc.GetL]
  · rw [mkRawD_wide_zero, mkRawD_wide_short]
    norm_num [CircArc.ContainsArc, CircVal.Pdist, WideRange, Range.R, eps, CircArc.GetL]

/-- C19 (as amended): let `ρ ≥ 0` bound the rounding error of the results of `Pdist`.  When
an arc `a` contains an arc `b` of the same range, then `b.GetL() < a.GetL() + 1e-12 + d + ρ`,
unless `b` is less than `1e-12 + d + 2ρ` short of the full circle without being it;
`d = |Pdist(b.GetC1(), b.GetC2()) - b.GetL()|`, taken exactly, is the rounding error stored
in the end point of `b`.  In exact arithmetic `d = ρ = 0`. -/
theorem C19_container_length (T : Range) (pd : CircVal → CircVal → ℚ) (ρ : ℚ)
    (a b : CircArc)
    (hpd : ∀ x y : CircVal, x.InRange T → y.InRange T → |pd x y - CircVal.Pdist T x y| ≤ ρ)
    (ha : a.InRange T) (hb : b.InRange T) (h : CircArc.ContainsArcP pd T a b = true) :
    b.GetL < a.GetL + eps + b.endDev T + ρ ∨
      (T.R - eps - b.endDev T - 2 * ρ < b.GetL ∧ b.GetL < T.R) := by
  have he := eps_pos
  have hρ : 0 ≤ ρ := le_trans (abs_nonneg _) (hpd a.c1 a.c1 ha.1 ha.1)
  have hd0 : 0 ≤ b.endDev T := abs_nonneg _
  obtain ⟨d1, d2⟩ := endDev_bounds T b
  show b.l.l < a.l.l + eps + b.endDev T + ρ ∨
    (T.R - eps - b.endDev T - 2 * ρ < b.l.l ∧ b.l.l < T.R)
  by_cases fa : a.l.l = T.R
  · left
    have := hb.2.2.2
    linarith
  · obtain ⟨fb, ⟨-, h2, h3⟩ | h4⟩ := ContainsArcP_walk T pd ρ a b hpd ha.1 hb fa h
    · left
      have n1 := Pdist_nonneg T a.c1 b.c1 ha.1 hb.1
      linarith
    · right
      exact ⟨by linarith, lt_of_le_of_ne hb.2.2.2 fb⟩

/-- C19 (witness): in `[0, 360)`, with `Pdist` exact, `CircArc(0, 100)` contains
`CircArc(10, 50)`, whose end point carries no rounding error, and 50 is below `100 + 1e-12`. -/
theorem C19_container_length_witness :
    (CircArc.mkRaw UnsignedDegRange 10 50).GetL
      < (CircArc.mkRaw UnsignedDegRange 0 100).GetL + eps
        + (CircArc.mkRaw UnsignedDegRange 10 50).endDev UnsignedDegRange + 0 :=
  (C19_container_length UnsignedDegRange (CircVal.Pdist UnsignedDegRange) 0
    (CircArc.mkRaw UnsignedDegRange 0 100) (CircArc.mkRaw UnsignedDegRange 10 50)
    (fun x y _ _ => by simp)
    (by norm_num [CircArc.InRange, CircVal.InRange, CircArcLen.InRange, CircArc.mkRaw,
      CircVal.ofRaw, CircVal.Wrap, Mod, Range.R, UnsignedDegRange, CircArcLen.ofRaw])
    (by norm_num [CircArc.InRange, CircVal.InRange, CircArcLen.InRange, CircArc.mkRaw,
      CircVal.ofRaw, CircVal.Wrap, Mod, Range.R, UnsignedDegRange, CircArcLen.ofRaw])
    (by norm_num [CircArc.ContainsArcP, CircArc.mkRaw, CircVal.ofRaw, CircVal.Wrap, Mod,
      Range.R, UnsignedDegRange, CircVal.Pdist, CircArcLen.ofRaw, eps])).resolve_right
    (by norm_num [CircArc.GetL, CircArc.endDev, CircArc.mkRaw, CircArcLen.ofRaw, CircVal.ofRaw,
      CircVal.Wrap, Mod, CircVal.Pdist, Range.R, UnsignedDegRange, eps])

/-- With the grid of the tester taken exactly (no product or sum rounded), `nSteps = 36` and
`fStep = R/36` at least `1e-12`: two grid arcs are equal if and only if each contains the
other. -/
theorem exact_grid_eq_iff_mutual_containment (T : Range) (i j k l : ℕ) (hs : eps ≤ fStep T)
    (hi : i < nSteps) (hj : j ≤ nSteps) (hk : k < nSteps) (hl : l ≤ nSteps) :
    CircArc.eq T (CircArcTester.arc T i j) (CircArcTester.arc T k l) = true ↔
      (CircArc.ContainsArc T (CircArcTester.arc T i j) (CircArcTester.arc T k l) = true ∧
        CircArc.ContainsArc T (CircArcTester.arc T k l) (CircArcTester.arc T i j) = true) := by
  have hi2 : i < 36 := hi
  have hj2 : j ≤ 36 := hj
  have hk2 : k < 36 := hk
  have hl2 : l ≤ 36 := hl
  rw [eq_grid T i j k l hs hi2 hj2 hk2 hl2, ContainsArc_grid T i j k l hs hi2 hj2 hk2 hl2,
    ContainsArc_grid T k l i j hs hk2 hl2 hi2 hj2]
  unfold stepContains
  split_ifs with h1 h2 h3 <;>
    simp only [Bool.and_eq_true, decide_eq_true_eq, Bool.false_eq_true, false_and, and_false,
      and_self, iff_true, iff_false] <;>
    omega

/-- C16 (failing input): in `[0, 2^20)`, where `fStep` is far above `1e-12`, the grid arc with
`(i, j) = (1, 4)` is stored with the end point `2^-36` beyond its start point advanced by
its length; taken as `a1` and as `a2` it satisfies `a1 == a2` while `a1.Contains(a2)` is
false, so `assert(b1 && b2)` fails. -/
theorem C16_grid_arc_not_in_itself :
    eps ≤ fStepD WideRange ∧
      CircArc.eq WideRange (CircArcTester.arcD WideRange 1 4)
        (CircArcTester.arcD WideRange 1 4) = true ∧
      CircArc.ContainsArc WideRange (CircArcTester.arcD WideRange 1 4)
        (CircArcTester.arcD WideRange 1 4) = false := by
  rw [arcD_wide, fStepD_wide]
  norm_num [CircArc.eq, CircArc.ContainsArc, CircVal.Pdist, WideRange, Range.R, eps]

/-- With the grid of the tester taken exactly (no product or sum rounded), `nSteps = 36` and
`fStep = R/36` at least `1e-12`: the counter `m` of the sweep
(pairs with `a1.Contains(a2)`) ends at `N*N*(N*N + 9*N + 8)/6` for `N = nSteps`, which is
351648, and the counter `n` (pairs with `a2.Contains(a1)`) ends at the same number. -/
theorem exact_tester_counts (T : Range) (hs : eps ≤ fStep T) :
    CircArcTester.m T = nSteps * nSteps * (nSteps * nSteps + 9 * nSteps + 8) / 6 ∧
      CircArcTester.m T = 351648 ∧ CircArcTester.n T = CircArcTester.m T := by
  have hm : CircArcTester.m T = 351648 := by
    unfold CircArcTester.m
    rw [count_eq_steps T _ stepContains (fun i j k l hi hj hk hl =>
      ContainsArc_grid T i j k l hs hi (Nat.lt_succ_iff.mp hj) hk (Nat.lt_succ_iff.mp hl)),
      stepCount_contains]
  have hn : CircArcTester.n T = 351648 := by
    unfold CircArcTester.n
    rw [count_eq_steps T _ (fun j d l => stepContains l ((36 - d) % 36) j)
      (fun i j k l hi hj hk hl => by
        rw [ContainsArc_grid T k l i j hs hk (Nat.lt_succ_iff.mp hl) hi (Nat.lt_succ_iff.mp hj)]
        have he : (i + 36 - k) % 36 = (36 - (k + 36 - i) % 36) % 36 := by omega
        rw [he]),
      stepCount_contained]
  refine ⟨?_, hm, by rw [hn, hm]⟩
  rw [hm]; norm_num [nSteps]

/-! ## Equality as a relation, and the conversion round trip -/

/-- C21: `operator==` on the arcs of one range is reflexive, symmetric and transitive, and a
full-circle arc is never equal to an arc that is not a full circle. -/
theorem C21_eq_equivalence :
    (∀ (T : Range) (a : CircArc), CircArc.eq T a a = true) ∧
    (∀ (T : Range) (a b : CircArc), CircArc.eq T a b = CircArc.eq T b a) ∧
    (∀ (T : Range) (a b c : CircArc), CircArc.eq T a b = true → CircArc.eq T b c = true →
      CircArc.eq T a c = true) ∧
    (∀ (T : Range) (a b : CircArc), a.GetL = T.R → b.GetL ≠ T.R →
      CircArc.eq T a b = false ∧ CircArc.eq T b a = false) := by
  refine ⟨eq_refl_true, ?_, ?_, ?_⟩
  · intro T a b
    cases h : CircArc.eq T b a with
    | true => exact eq_symm_true T b a h
    | false =>
      cases h2 : CircArc.eq T a b with
      | true => rw [eq_symm_true T a b h2] at h; exact absurd h (by decide)
      | false => rfl
  · intro T a b c hab hbc
    rcases eq_true_cases T a b hab with ⟨h1, h2⟩ | ⟨hc1, hl1⟩
    · rcases eq_true_cases T b c hbc with ⟨-, h4⟩ | ⟨-, hl2⟩
      · simp [CircArc.eq, h1, h4]
      · have h4 : c.l.l = T.R := by rw [← hl2]; exact h2
        simp [CircArc.eq, h1, h4]
    · rcases eq_true_cases T b c hbc with ⟨h3, h4⟩ | ⟨hc2, hl2⟩
      · have h1 : a.l.l = T.R := by rw [hl1]; exact h3
        simp [CircArc.eq, h1, h4]
      · simp [CircArc.eq, hc1.trans hc2, hl1.trans hl2]
  · intro T a b ha hb
    have ha2 : a.l.l = T.R := ha
    have hb2 : ¬ b.l.l = T.R := hb
    have hne : ¬ a.l = b.l := by
      intro h
      rw [h] at ha2
      exact hb2 ha2
    have hne2 : ¬ b.l = a.l := fun h => hne h.symm
    simp [CircArc.eq, ha2, hb2, hne, hne2]

/-- C21 (witness): in `[0, 360)` the full circles starting at 10 and at 20 are equal, the
latter equals the full circle starting at 30, and so do the first and the last; the full
circle starting at 10 is not equal to `CircArc(10, 90)`. -/
theorem C21_eq_equivalence_witness :
    CircArc.eq UnsignedDegRange (CircArc.mkRaw UnsignedDegRange 10 360)
        (CircArc.mkRaw UnsignedDegRange 30 360) = true ∧
      CircArc.eq UnsignedDegRange (CircArc.mkRaw UnsignedDegRange 10 360)
        (CircArc.mkRaw UnsignedDegRange 10 90) = false :=
  ⟨C21_eq_equivalence.2.2.1 UnsignedDegRange (CircArc.mkRaw UnsignedDegRange 10 360)
      (CircArc.mkRaw UnsignedDegRange 20 360) (CircArc.mkRaw UnsignedDegRange 30 360)
      (by norm_num [CircArc.eq, CircArc.mkRaw, CircArcLen.ofRaw, Range.R, UnsignedDegRange])
      (by norm_num [CircArc.eq, CircArc.mkRaw, CircArcLen.ofRaw, Range.R, UnsignedDegRange]),
    (C21_eq_equivalence.2.2.2 UnsignedDegRange (CircArc.mkRaw UnsignedDegRange 10 360)
      (CircArc.mkRaw UnsignedDegRange 10 90)
      (by norm_num [CircArc.GetL, CircArc.mkRaw, CircArcLen.ofRaw, Range.R, UnsignedDegRange])
      (by norm_num [CircArc.GetL, CircArc.mkRaw, CircArcLen.ofRaw, Range.R,
        UnsignedDegRange])).1⟩

/-- C22: for circumferences `R1 > 0` and `R2 > 0` and a length `c` in `[0, R1]`, converting
`c` to the second range gives a length in `[0, R2]`, and converting that back gives `c`
again, by the constructors as well as by the assignments; the whole circle `R1` goes to
`R2` and `R2` goes back to `R1`. -/
theorem C22_conversion_round_trip (T1 T2 : Range) (c x : CircArcLen) (h1 : 0 < T1.R)
    (h2 : 0 < T2.R) (hc : c.InRange T1) :
    (CircArcLen.convert T1 T2 c).InRange T2 ∧
      CircArcLen.convert T2 T1 (CircArcLen.convert T1 T2 c) = c ∧
      CircArcLen.assignConvert T2 T1 x (CircArcLen.assignConvert T1 T2 x c) = c ∧
      CircArcLen.convert T1 T2 ⟨T1.R⟩ = ⟨T2.R⟩ ∧ CircArcLen.convert T2 T1 ⟨T2.R⟩ = ⟨T1.R⟩ := by
  have hrt : CircArcLen.convert T2 T1 (CircArcLen.convert T1 T2 c) = c := by
    cases c with
    | mk v =>
      simp only [CircArcLen.convert, CircArcLen.mk.injEq]
      by_cases hv : v = T1.R
      · simp [hv]
      · have hx : ¬ T2.R / T1.R * v = T2.R := by
          intro h
          apply hv
          field_simp at h
          rcases h with h | h
          · exact h
          · exact absurd h h2.ne'
        rw [if_neg hv, if_neg hx]
        field_simp
        ring
  refine ⟨?_, hrt, hrt, ?_, ?_⟩
  · obtain ⟨c0, c1⟩ := hc
    have hv : (CircArcLen.convert T1 T2 c).l = c.l * T2.R / T1.R := by
      simp only [CircArcLen.convert]
      split_ifs with h
      · rw [h]; field_simp
      · ring
    constructor
    · show 0 ≤ (CircArcLen.convert T1 T2 c).l
      rw [hv]; positivity
    · show (CircArcLen.convert T1 T2 c).l ≤ T2.R
      rw [hv, div_le_iff₀ h1]
      nlinarith
  · simp [CircArcLen.convert]
  · simp [CircArcLen.convert]

/-- C22 (witness): the length 90 of `[0, 360)` converted to a range of circumference 8 and
back is 90 again. -/
theorem C22_conversion_round_trip_witness :
    CircArcLen.convert ⟨1, 9, 1⟩ UnsignedDegRange
      (CircArcLen.convert UnsignedDegRange ⟨1, 9, 1⟩ ⟨90⟩) = ⟨90⟩ :=
  (C22_conversion_round_trip UnsignedDegRange ⟨1, 9, 1⟩ ⟨90⟩ ⟨0⟩
    (by norm_num [Range.R, UnsignedDegRange]) (by norm_num [Range.R])
    (by norm_num [CircArcLen.InRange, Range.R, UnsignedDegRange])).2.1

end Circular
